import Mathlib

/-!
# Animated portfolio website: the stateful parts of `src/App.jsx`

A shallow embedding of the components of `src/App.jsx` that carry state:

* `TypewriterLoop` (lines 19-56): the looping typewriter of the hero subtitle;
* `useEnterOnce` and `TypewriterOnView` (lines 61-106): the reveal-once typewriter;
* `useDarkMode` (lines 108-125): the theme preference;
* `handleSubmit` and the popup of `App` (lines 521-569, 839-909): the contact form;
* the roadmap table and the `useTransform` calls of `EducationRoadmap` (lines 305-390).

Conventions.  A JavaScript string is the list of its UTF-16 code units, one list element
per code unit, so that `length`, `substring` and `slice` are operations on lists.  A React
component is a record of its `useState` cells together with the timers its effects have
pending and one flag per effect that tells whether the effect has to run at the next
flush (one of its dependencies changed in the last commit).  State setters called inside
an effect take effect after all effects of that flush have run, as in React; the effects
of one flush all read the values of the render they belong to.
-/

namespace PortfolioApp

/-- A JavaScript string, as the list of its code units. -/
abbrev JSString := List Char

/-- Clamp an integer argument of `substring` to `[0, len]`. -/
def clampIndex (len : Nat) (i : Int) : Nat := min i.toNat len

/-- The method `String.prototype.substring(start, end)`: both arguments are clamped to
`[0, length]` and swapped when `start > end`. -/
def substring (s : JSString) (a b : Int) : JSString :=
  let a' := clampIndex s.length a
  let b' := clampIndex s.length b
  (s.drop (min a' b')).take (max a' b' - min a' b')

/-- Resolve a relative index of `slice`: a negative index counts from the end. -/
def sliceIndex (len : Nat) (i : Int) : Nat :=
  if i < 0 then (len + i).toNat else min i.toNat len

/-- The method `String.prototype.slice(start, end)`: negative arguments count from the end,
and the result is empty when the resolved `start` is not before the resolved `end`. -/
def slice (s : JSString) (a b : Int) : JSString :=
  let a' := sliceIndex s.length a
  let b' := sliceIndex s.length b
  (s.drop a').take (b' - a')

/-! ## TypewriterLoop -/

namespace TypewriterLoop

/-- The props of `TypewriterLoop` (line 19); the speeds and the delay are milliseconds. -/
structure Props where
  texts : List JSString
  typingSpeed : Nat := 100
  deletingSpeed : Nat := 50
  delay : Nat := 1500
deriving DecidableEq, Repr

/-- The two callbacks the main effect hands to `setTimeout`:
`() => setDeleting(true)` (line 29) and
`() => setSubIndex(prev => prev + (deleting ? -1 : 1))` (lines 39-41), the latter with the
value of `deleting` of the render that scheduled it. -/
inductive Callback where
  | setDeletingTrue
  | bumpSubIndex (deleting : Bool)
deriving DecidableEq, Repr

/-- A pending timeout: its delay in milliseconds and its callback. -/
structure Timer where
  ms : Nat
  cb : Callback
deriving DecidableEq, Repr

/-- The state of one mounted `TypewriterLoop`: the four `useState` cells (lines 20-23), the
timeout the main effect has pending, and for each of the two effects whether it runs at
the next flush. -/
structure State where
  displayed : JSString
  index : Nat
  subIndex : Int
  deleting : Bool
  timer : Option Timer
  mainDirty : Bool
  displayDirty : Bool
deriving DecidableEq, Repr

/-- The state of the first render: all cells at their initial values, both effects due. -/
def init : State :=
  { displayed := [], index := 0, subIndex := 0, deleting := false,
    timer := none, mainDirty := true, displayDirty := true }

/-- The cells as the main effect (lines 25-44) leaves them, run for the render `r`: its
previous cleanup has cleared the timeout, then it returns early, schedules the hold,
moves on to the next text, or schedules one typing or deleting tick. -/
def mainEffect (p : Props) (r : State) : State :=
  let s := { r with timer := none }
  if p.texts.length ≤ r.index then s
  else if r.deleting = false ∧ r.subIndex = (((p.texts[r.index]?).getD []).length : Int) then
    { s with timer := some ⟨p.delay, .setDeletingTrue⟩ }
  else if r.deleting = true ∧ r.subIndex = 0 then
    { s with deleting := false, index := (r.index + 1) % p.texts.length }
  else
    { s with timer := some ⟨if r.deleting then p.deletingSpeed else p.typingSpeed,
                            .bumpSubIndex r.deleting⟩ }

/-- The value the display effect (lines 46-48) passes to `setDisplayed` for the render `r`;
`none` when `texts[index]` is `undefined`, where reading `.substring` throws. -/
def displayEffect (p : Props) (r : State) : Option JSString :=
  (p.texts[r.index]?).map fun t => substring t 0 r.subIndex

/-- One flush of the effects after the commit of render `r`: the main effect and the display
effect run, in this order and each only when due, both on the values of `r`; then the
queued setters apply, and an effect is due again when one of its dependencies changed.
`none` stands for the `TypeError` of the display effect. -/
def flushEffects (p : Props) (r : State) : Option State :=
  let s := if r.mainDirty then mainEffect p r else r
  let d := if r.displayDirty then displayEffect p r else some r.displayed
  d.map fun disp =>
    { s with displayed := disp,
             mainDirty := decide (s.index ≠ r.index) || decide (s.deleting ≠ r.deleting),
             displayDirty := decide (s.index ≠ r.index) }

/-- The pending timeout fires and its callback runs. -/
def fireTimer (s : State) : State :=
  match s.timer with
  | none => s
  | some t =>
    match t.cb with
    | .setDeletingTrue =>
      { s with timer := none, deleting := true,
               mainDirty := s.mainDirty || decide (s.deleting ≠ true) }
    | .bumpSubIndex d =>
      { s with timer := none, subIndex := s.subIndex + (if d then -1 else 1),
               mainDirty := true, displayDirty := true }

/-- The next thing that happens to a mounted component left alone: pending effects are
flushed, otherwise the pending timeout fires. -/
def step (p : Props) (s : State) : Option State :=
  if s.mainDirty || s.displayDirty then flushEffects p s else some (fireTimer s)

/-- The state after `k` steps from the state `s`. -/
def runFrom (p : Props) (s : State) : Nat → Option State
  | 0 => some s
  | k + 1 => (runFrom p s k).bind (step p)

/-- The state after `k` steps from the first render. -/
def run (p : Props) (k : Nat) : Option State := runFrom p init k

/-- The state in which the component starts on `texts[i]`: nothing displayed, nothing typed,
not deleting, no timeout pending, the main effect due; the display effect is due when
`index` has just changed (or at mount). -/
def entry (i : Nat) (displayDue : Bool) : State :=
  { displayed := [], index := i, subIndex := 0, deleting := false,
    timer := none, mainDirty := true, displayDirty := displayDue }

/-- What can happen to a mounted component: `advance` is `step`; `parentRender` is a render
caused by the parent, which passes a fresh `texts` array (line 599 builds it inline), so
both effects are due afterwards; pending effects are flushed before it. -/
inductive Event where
  | advance
  | parentRender
deriving DecidableEq, Repr

/-- The effect of one event. -/
def handle (p : Props) (s : State) : Event → Option State
  | .advance => step p s
  | .parentRender =>
    (if s.mainDirty || s.displayDirty then flushEffects p s else some s).map fun s' =>
      { s' with mainDirty := true, displayDirty := true }

/-- The state after the events `es`, oldest first, from the state `s`. -/
def exec (p : Props) (s : State) : List Event → Option State
  | [] => some s
  | e :: es => (handle p s e).bind fun s' => exec p s' es

/-- The state after a list of events, oldest first, from the first render. -/
def runEvents (p : Props) (es : List Event) : Option State := exec p init es

/-- The values of `displayed` over the first `k` steps, oldest first; a crashed run
contributes nothing. -/
def displayedTrace (p : Props) : Nat → List JSString
  | 0 => [[]]
  | k + 1 => displayedTrace p k ++ ((run p (k + 1)).map fun s => s.displayed).toList

/-- Drop every element equal to its predecessor. -/
def distinctRuns : List JSString → List JSString
  | [] => []
  | [a] => [a]
  | a :: b :: rest => if a = b then distinctRuns (b :: rest) else a :: distinctRuns (b :: rest)

/-- While typing `t = texts[i]`, after the display effect: `k` code units are typed and
shown, and the timeout pending is the hold when `t` is complete, else the next typing tick. -/
def typing (p : Props) (i : Nat) (t : JSString) (k : Nat) : State :=
  { displayed := t.take k, index := i, subIndex := k, deleting := false,
    timer := some (if k = t.length then ⟨p.delay, .setDeletingTrue⟩
                   else ⟨p.typingSpeed, .bumpSubIndex false⟩),
    mainDirty := false, displayDirty := false }

/-- While typing, between a tick and the display effect: `k + 1` code units are typed and
`k` are shown. -/
def typingTicked (i : Nat) (t : JSString) (k : Nat) : State :=
  { displayed := t.take k, index := i, subIndex := k + 1, deleting := false,
    timer := none, mainDirty := true, displayDirty := true }

/-- After the hold timeout has fired: `t` is shown in full and `deleting` is set. -/
def held (i : Nat) (t : JSString) : State :=
  { displayed := t, index := i, subIndex := t.length, deleting := true,
    timer := none, mainDirty := true, displayDirty := false }

/-- While deleting `t = texts[i]`, after the display effect: `k` code units remain and are
shown, and a deleting tick is pending. -/
def erasing (p : Props) (i : Nat) (t : JSString) (k : Nat) : State :=
  { displayed := t.take k, index := i, subIndex := k, deleting := true,
    timer := some ⟨p.deletingSpeed, .bumpSubIndex true⟩,
    mainDirty := false, displayDirty := false }

/-- While deleting, between a tick and the display effect: `k` code units remain and
`k + 1` are shown. -/
def erasingTicked (i : Nat) (t : JSString) (k : Nat) : State :=
  { displayed := t.take (k + 1), index := i, subIndex := k, deleting := true,
    timer := none, mainDirty := true, displayDirty := true }

/-- The invariant of a mounted `TypewriterLoop`: `index` is in range, `subIndex` is between 0
and the length of the current text, `displayed` is a prefix of the current text, of length
`subIndex` once the display effect has run, and once the main effect has run a timeout is
pending whose callback fits the state. -/
def Inv (p : Props) (s : State) : Prop :=
  ∃ t, p.texts[s.index]? = some t ∧ 0 ≤ s.subIndex ∧ s.subIndex ≤ (t.length : Int) ∧
    (∃ j : Nat, j ≤ t.length ∧ s.displayed = t.take j ∧
      (s.displayDirty = false → (j : Int) = s.subIndex)) ∧
    (s.mainDirty = false →
      match s.timer with
      | none => False
      | some ⟨_, .setDeletingTrue⟩ => s.deleting = false ∧ s.subIndex = (t.length : Int)
      | some ⟨_, .bumpSubIndex d⟩ =>
        d = s.deleting ∧ (d = false → s.subIndex < (t.length : Int)) ∧
          (d = true → 0 < s.subIndex))

/-- The call `clearTimeout(id)` on the table of pending timeouts; `none` stands for an effect
run that returned no cleanup, which clears nothing. -/
def clearTimeout (id : Option Nat) (pending : List (Nat × Timer)) : List (Nat × Timer) :=
  match id with
  | none => pending
  | some i => pending.filter fun e => e.1 ≠ i

/-- A `TypewriterLoop` with the timers of the browser made explicit: the cells; the table of
pending timeouts by id (`setTimeout` adds one under a fresh id, `clearTimeout` removes the
one with the given id, a timeout that fires is removed); the id that the cleanup returned
by the last run of the main effect clears, if that run returned a cleanup; the next fresh
id; and whether the component is mounted. -/
structure Live where
  cells : State
  pending : List (Nat × Timer)
  cleanup : Option Nat
  nextId : Nat
  mounted : Bool
deriving DecidableEq, Repr

/-- The first render, with no timeout pending. -/
def Live.init : Live :=
  { cells := TypewriterLoop.init, pending := [], cleanup := none, nextId := 0,
    mounted := true }

/-- One flush of the effects.  When the main effect runs, the cleanup of its previous run is
called first (lines 30 and 43), and the timeout the run hands to `setTimeout` (lines 29
and 39), which is the `timer` of the cells after the flush, enters the table under a
fresh id, which the cleanup the run returns will clear; the two branches that return
early return no cleanup. -/
def Live.flush (p : Props) (l : Live) : Option Live :=
  (flushEffects p l.cells).map fun c =>
    if l.cells.mainDirty then
      match c.timer with
      | none => { l with cells := c, pending := clearTimeout l.cleanup l.pending,
                         cleanup := none }
      | some t => { l with cells := c,
                           pending := clearTimeout l.cleanup l.pending ++ [(l.nextId, t)],
                           cleanup := some l.nextId, nextId := l.nextId + 1 }
    else { l with cells := c }

/-- The pending timeout with the given id fires: it leaves the table and its callback runs.
Nothing happens when no timeout with that id is pending. -/
def Live.fire (l : Live) (id : Nat) : Live :=
  match l.pending.find? fun e => e.1 = id with
  | none => l
  | some e => { l with pending := l.pending.filter fun x => x.1 ≠ id,
                       cells := fireTimer { l.cells with timer := some e.2 } }

/-- The component is torn down: React calls the cleanup of the last run of the main effect;
the display effect has none. -/
def Live.unmount (l : Live) : Live :=
  { l with cells := { l.cells with timer := none },
           pending := clearTimeout l.cleanup l.pending, cleanup := none, mounted := false }

/-- What can happen to the component and its timers: the effects are flushed, the timeout
with some id fires, the parent renders, or the component is torn down. -/
inductive LiveEvent where
  | flush
  | fire (id : Nat)
  | parentRender
  | unmount
deriving DecidableEq, Repr

/-- The effect of one event.  Effects run only while the component is mounted; as in `step`,
a timeout fires only when no effect is pending; pending effects are flushed before a
render caused by the parent and before the teardown; the browser fires a pending timeout
whether the component is mounted or not. -/
def Live.handle (p : Props) (l : Live) : LiveEvent → Option Live
  | .flush =>
    if l.mounted && (l.cells.mainDirty || l.cells.displayDirty) then Live.flush p l else some l
  | .fire id =>
    if l.mounted && (l.cells.mainDirty || l.cells.displayDirty) then some l
    else some (Live.fire l id)
  | .parentRender =>
    if l.mounted then
      (if l.cells.mainDirty || l.cells.displayDirty then Live.flush p l else some l).map
        fun l' => { l' with cells := { l'.cells with mainDirty := true, displayDirty := true } }
    else some l
  | .unmount =>
    if l.mounted then
      (if l.cells.mainDirty || l.cells.displayDirty then Live.flush p l else some l).map
        Live.unmount
    else some l

/-- The state after the events `es`, oldest first, from the state `l`. -/
def Live.exec (p : Props) (l : Live) : List LiveEvent → Option Live
  | [] => some l
  | e :: es => (Live.handle p l e).bind fun l' => Live.exec p l' es

/-- The invariant of the timer table: while the component is mounted its cells satisfy `Inv`;
the pending timeouts are the one the cells record, if any; every pending timeout is the
one the current cleanup clears; and after the teardown no timeout is pending. -/
def LiveInv (p : Props) (l : Live) : Prop :=
  (l.mounted = true → Inv p l.cells) ∧
    l.pending.map Prod.snd = l.cells.timer.toList ∧
    (∀ e ∈ l.pending, l.cleanup = some e.1) ∧
    (l.mounted = false → l.pending = [])

/-- The scenario of the specification: texts `["A", "BB"]`, typing speed 10 ms, deleting
speed 5 ms, no hold delay. -/
def scenario : Props :=
  { texts := [['A'], ['B', 'B']], typingSpeed := 10, deletingSpeed := 5, delay := 0 }

/-- The list `c` repeated `m` times. -/
def repeated (c : List JSString) : Nat → List JSString
  | 0 => []
  | m + 1 => repeated c m ++ c

/-- The values `displayed` takes in one cycle of the scenario, each change once:
`""`, `"A"`, `""`, `"B"`, `"BB"`, `"B"`. -/
def scenarioCycle : List JSString := [[], ['A'], [], ['B'], ['B', 'B'], ['B']]

end TypewriterLoop

/-! ## useEnterOnce -/

namespace EnterOnce

/-- The state of one `useEnterOnce` instance (lines 61-79): the cell `entered`, whether the
`IntersectionObserver` made by the last run of the effect is connected, and whether the
effect runs at the next flush. -/
structure State where
  entered : Bool
  observing : Bool
  dirty : Bool
deriving DecidableEq, Repr

/-- The state of the first render. -/
def init : State := { entered := false, observing := false, dirty := true }

/-- One run of the effect (lines 65-76): the cleanup of the previous run disconnects its
observer; the body returns early when `ref.current` is unset or `entered` holds, and
otherwise makes an observer and lets it observe the element. -/
def effect (attached : Bool) (s : State) : State :=
  let s' := { s with observing := false, dirty := false }
  if !attached || s.entered then s' else { s' with observing := true }

/-- The observer callback (lines 67-72) for an entry with the given `isIntersecting`:
an intersecting entry sets `entered` and disconnects the observer; the effect is due
again when `entered` changed. -/
def callback (isIntersecting : Bool) (s : State) : State :=
  if isIntersecting then
    { entered := true, observing := false, dirty := s.dirty || !s.entered }
  else s

/-- What can happen to the hook: the effects are flushed, the observer delivers an entry, or
the owner renders again, with a new `options` object or with the same one. -/
inductive Event where
  | flush
  | callback (isIntersecting : Bool)
  | render (optionsChanged : Bool)
deriving DecidableEq, Repr

/-- The effect of one event. -/
def handle (attached : Bool) (s : State) : Event → State
  | .flush => if s.dirty then effect attached s else s
  | .callback b => callback b s
  | .render c => { s with dirty := s.dirty || c }

/-- The state after the events `es`, oldest first, from the state `s`. -/
def exec (attached : Bool) (s : State) : List Event → State
  | [] => s
  | e :: es => exec attached (handle attached s e) es

/-- How many of the events `es`, run from `s`, switch `entered` from false to true. -/
def rises (attached : Bool) (s : State) : List Event → Nat
  | [] => 0
  | e :: es =>
    (if s.entered = false ∧ (handle attached s e).entered = true then 1 else 0)
      + rises attached (handle attached s e) es

/-- How many of the events `es`, run from `s`, switch `entered` from true to false. -/
def falls (attached : Bool) (s : State) : List Event → Nat
  | [] => 0
  | e :: es =>
    (if s.entered = true ∧ (handle attached s e).entered = false then 1 else 0)
      + falls attached (handle attached s e) es

end EnterOnce

/-! ## TypewriterOnView -/

namespace TypewriterOnView

/-- The props of `TypewriterOnView` (line 81) that its logic reads. -/
structure Props where
  text : JSString := []
  speed : Nat := 70
deriving DecidableEq, Repr

/-- The state of one mounted `TypewriterOnView`: its `useEnterOnce` instance, the cell `out`,
the running interval of the reveal effect with the value of its counter `i`, and whether
the reveal effect runs at the next flush. -/
structure State where
  hook : EnterOnce.State
  out : JSString
  interval : Option Nat
  revealDirty : Bool
deriving DecidableEq, Repr

/-- The state of the first render. -/
def init : State :=
  { hook := EnterOnce.init, out := [], interval := none, revealDirty := true }

/-- One run of the reveal effect (lines 85-98) for the render `r`: the cleanup of the previous
run clears its interval; the body returns early while `entered` is false, and otherwise
resets `out` and starts an interval with `i = 0`. -/
def revealEffect (r : State) : State :=
  let s := { r with interval := none, revealDirty := false }
  if !r.hook.entered then s else { s with out := [], interval := some 0 }

/-- One flush of the effects: the effect of `useEnterOnce` (the element is rendered, so
`ref.current` is set) and the reveal effect, each when due.  When `out` changed the
component renders again and passes a new `options` object to the hook (line 82), so the
hook effect is due again. -/
def flushEffects (r : State) : State :=
  let h := if r.hook.dirty then EnterOnce.effect true r.hook else r.hook
  let s := if r.revealDirty then revealEffect r else r
  { s with hook := { h with dirty := decide (s.out ≠ r.out) } }

/-- One tick of the interval (lines 91-95): `i++`, `setOut(text.slice(0, i))`, and the
interval is cleared once `i >= text.length`.  Nothing happens without an interval. -/
def tick (p : Props) (s : State) : State :=
  match s.interval with
  | none => s
  | some i =>
    let i' := i + 1
    let out' := slice p.text 0 i'
    { s with out := out',
             interval := if p.text.length ≤ i' then none else some i',
             hook := { s.hook with dirty := s.hook.dirty || decide (out' ≠ s.out) } }

/-- What can happen to a mounted component: the effects are flushed, the interval ticks, the
observer delivers an entry, or the parent renders. -/
inductive Event where
  | flush
  | tick
  | callback (isIntersecting : Bool)
  | parentRender
deriving DecidableEq, Repr

/-- The effect of one event. -/
def handle (p : Props) (s : State) : Event → State
  | .flush => flushEffects s
  | .tick => tick p s
  | .callback b =>
    let h := EnterOnce.callback b s.hook
    { s with hook := h, revealDirty := s.revealDirty || decide (h.entered ≠ s.hook.entered) }
  | .parentRender => { s with hook := { s.hook with dirty := true } }

/-- The state after the events `es`, oldest first, from the state `s`. -/
def exec (p : Props) (s : State) : List Event → State
  | [] => s
  | e :: es => exec p (handle p s e) es

/-- The states of a component whose reveal effect has run with `entered` set and whose
interval has ticked `k` times: `out` is the prefix of `text` of length `min k n`, and the
interval runs with counter `k` until `max n 1` ticks have happened. -/
def Revealed (p : Props) (k : Nat) (s : State) : Prop :=
  s.hook.entered = true ∧ s.revealDirty = false ∧
    s.out = p.text.take (min k p.text.length) ∧
    s.interval = (if max p.text.length 1 ≤ k then none else some k)

/-- The call `clearInterval(id)` on the table of running intervals; `none` stands for an
effect run that returned no cleanup, which clears nothing. -/
def clearInterval (id : Option Nat) (running : List Nat) : List Nat :=
  match id with
  | none => running
  | some i => running.filter fun j => j ≠ i

/-- A `TypewriterOnView` with the intervals of the browser made explicit: the cells; the ids
of the running intervals (`setInterval` adds a fresh id, `clearInterval` removes the given
id); the id that the cleanup returned by the last run of the reveal effect clears, if that
run returned a cleanup; the next fresh id; and whether the component is mounted. -/
structure Live where
  cells : State
  running : List Nat
  cleanup : Option Nat
  nextId : Nat
  mounted : Bool
deriving DecidableEq, Repr

/-- The first render, with no interval running. -/
def Live.init : Live :=
  { cells := TypewriterOnView.init, running := [], cleanup := none, nextId := 0,
    mounted := true }

/-- One flush of the effects.  When the reveal effect runs, the cleanup of its previous run
is called first (line 97); when the run calls `setInterval` (line 91), which is when the
cells after the flush have an interval, a fresh id enters the table, which the cleanup
the run returns will clear; the early return of line 86 returns no cleanup. -/
def Live.flush (l : Live) : Live :=
  if l.cells.revealDirty then
    if (flushEffects l.cells).interval.isSome then
      { l with cells := flushEffects l.cells,
               running := clearInterval l.cleanup l.running ++ [l.nextId],
               cleanup := some l.nextId, nextId := l.nextId + 1 }
    else
      { l with cells := flushEffects l.cells,
               running := clearInterval l.cleanup l.running, cleanup := none }
  else { l with cells := flushEffects l.cells }

/-- The running interval with the given id ticks; when the callback has cleared the interval
(line 94) its id leaves the table.  Nothing happens when no interval with that id runs. -/
def Live.tick (p : Props) (l : Live) (id : Nat) : Live :=
  if id ∈ l.running then
    { l with cells := TypewriterOnView.tick p l.cells,
             running := if (TypewriterOnView.tick p l.cells).interval.isSome then l.running
                        else l.running.filter fun j => j ≠ id }
  else l

/-- The component is torn down: React calls the cleanup of the last run of the reveal effect
(line 97) and that of the effect of `useEnterOnce` (line 75). -/
def Live.unmount (l : Live) : Live :=
  { l with cells := { l.cells with interval := none,
                                   hook := { l.cells.hook with observing := false } },
           running := clearInterval l.cleanup l.running, cleanup := none, mounted := false }

/-- What can happen to the component and its intervals: the effects are flushed, the interval
with some id ticks, the observer delivers an entry, the parent renders, or the component
is torn down. -/
inductive LiveEvent where
  | flush
  | tick (id : Nat)
  | callback (isIntersecting : Bool)
  | parentRender
  | unmount
deriving DecidableEq, Repr

/-- The effect of one event.  Effects, observer entries and renders reach the component only
while it is mounted; pending effects are flushed before the teardown; the browser ticks a
running interval whether the component is mounted or not. -/
def Live.handle (p : Props) (l : Live) : LiveEvent → Live
  | .flush => if l.mounted then Live.flush l else l
  | .tick id => Live.tick p l id
  | .callback b =>
    if l.mounted then { l with cells := TypewriterOnView.handle p l.cells (.callback b) } else l
  | .parentRender =>
    if l.mounted then { l with cells := TypewriterOnView.handle p l.cells .parentRender } else l
  | .unmount => if l.mounted then Live.unmount (Live.flush l) else l

/-- The state after the events `es`, oldest first, from the state `l`. -/
def Live.exec (p : Props) (l : Live) : List LiveEvent → Live
  | [] => l
  | e :: es => Live.exec p (Live.handle p l e) es

/-- The invariant of the interval table: no interval runs, or exactly one, which the current
cleanup clears; none runs when the cells record none; and after the teardown none runs. -/
def LiveInv (l : Live) : Prop :=
  (l.running = [] ∨ ∃ i, l.running = [i] ∧ l.cleanup = some i) ∧
    (l.cells.interval = none → l.running = []) ∧
    (l.mounted = false → l.running = [])

end TypewriterOnView

/-! ## useDarkMode -/

namespace DarkMode

/-- The value of the cell `dark` (line 109): a boolean, or `undefined`, which the initialiser
returns when `window.matchMedia` is missing (`window.matchMedia && ...`). -/
inductive DarkValue where
  | bool (b : Bool)
  | undefined
deriving DecidableEq, Repr

/-- Whether `if (dark)` takes its first branch; `!dark` is the negation of this. -/
def DarkValue.truthy : DarkValue → Bool
  | .bool b => b
  | .undefined => false

/-- The last line of the initialiser (line 112): the system preference, where `sys` is `none`
when `window.matchMedia` is missing and else the `matches` of the dark-scheme query. -/
def systemDark : Option Bool → DarkValue
  | none => .undefined
  | some m => .bool m

/-- The initialiser of `dark` (lines 109-113): `pref` is what `localStorage.getItem("theme")`
returns, `none` for `null`; a non-empty string is truthy and decides alone. -/
def initialDark (pref : Option String) (sys : Option Bool) : DarkValue :=
  match pref with
  | none => systemDark sys
  | some v => if v ≠ "" then .bool (decide (v = "dark")) else systemDark sys

/-- The state of one `useDarkMode` instance and of what it writes: the cell `dark`, the value
stored under the key "theme", whether the root element has the class "dark", and whether
the theme effect runs at the next flush. -/
structure State where
  dark : DarkValue
  theme : Option String
  rootDark : Bool
  dirty : Bool
deriving DecidableEq, Repr

/-- The state of the first render, given the stored preference, the system preference and
whether the root element has the class "dark". -/
def init (pref : Option String) (sys : Option Bool) (rootDark : Bool) : State :=
  { dark := initialDark pref sys, theme := pref, rootDark := rootDark, dirty := true }

/-- One run of the theme effect (lines 114-123). -/
def themeEffect (s : State) : State :=
  if s.dark.truthy then { s with rootDark := true, theme := some "dark", dirty := false }
  else { s with rootDark := false, theme := some "light", dirty := false }

/-- What can happen to the hook: the effects are flushed, or the button of line 584 is
pressed, which calls `setDark(!dark)`. -/
inductive Event where
  | flush
  | toggle
deriving DecidableEq, Repr

/-- The effect of one event; a toggle always changes `dark`, so the effect is due after it. -/
def handle (s : State) : Event → State
  | .flush => if s.dirty then themeEffect s else s
  | .toggle => { s with dark := .bool (!s.dark.truthy), dirty := true }

/-- The state after the events `es`, oldest first, from the state `s`. -/
def exec (s : State) : List Event → State
  | [] => s
  | e :: es => exec (handle s e) es

/-- The string the theme effect stores for a value of `dark`. -/
def themeName (d : DarkValue) : String := if d.truthy then "dark" else "light"

end DarkMode

/-! ## The contact form of App -/

namespace App

/-- The cell `formData` (line 522). -/
structure FormData where
  name : String
  email : String
  message : String
deriving DecidableEq, Repr

/-- The template parameters `handleSubmit` passes to `emailjs.send` (lines 548-552). -/
structure TemplateParams where
  from_name : String
  from_email : String
  message : String
deriving DecidableEq, Repr

/-- What the promise of `emailjs.send` settles with, as far as `handleSubmit` reads it: the
property `text` (lines 556 and 561).  The library settles with an `EmailJSResponseStatus`
object, or throws a string, which has no `text`; it does not settle with `null` or
`undefined`, so reading `.text` yields a value or `undefined` and does not throw. -/
structure RelayValue where
  text : Option String
deriving DecidableEq, Repr

/-- How the relay call of one submission ends. -/
inductive Outcome where
  | resolved (result : RelayValue)
  | rejected (error : RelayValue)
deriving DecidableEq, Repr

/-- How a run of the `async` function `handleSubmit` ends: its promise is fulfilled, or it is
rejected with the value thrown. -/
inductive Completion where
  | fulfilled
  | rejected (reason : RelayValue)
deriving DecidableEq, Repr

/-- The message of line 557. -/
def successMessage : String := "✅ Message Sent Successfully!"

/-- The message of line 562. -/
def failureMessage : String := "❌ Failed to Send Message. Please Try Again!"

/-- The delay of the auto-hide timeout (line 567), in milliseconds. -/
def autoHideMs : Nat := 3000

/-- The state of `App` around the contact form: the cells `formData`, `sent`, `loading`,
`popupMessage` and `popupVisible` (lines 522-534); the calls of `emailjs.send` made so far
and the number of them not yet settled; the times at which the pending auto-hide timeouts
fall due; the clock, in milliseconds; what was written to the console; and whether the
component is mounted. -/
structure State where
  formData : FormData
  sent : Bool
  loading : Bool
  popupMessage : String
  popupVisible : Bool
  calls : List TemplateParams
  inFlight : Nat
  timers : List Nat
  now : Nat
  console : List (String × Option String)
  mounted : Bool
deriving DecidableEq, Repr

/-- The state of the first render. -/
def init : State :=
  { formData := { name := "", email := "", message := "" }, sent := false, loading := false,
    popupMessage := "", popupVisible := false, calls := [], inFlight := 0, timers := [],
    now := 0, console := [], mounted := true }

/-- The three inputs of the form (lines 842-850). -/
inductive Field where
  | name
  | email
  | message
deriving DecidableEq, Repr

/-- The handler `handleChange` (lines 536-537): the field named by the input is replaced. -/
def handleChange (f : Field) (v : String) (s : State) : State :=
  match f with
  | .name => { s with formData := { s.formData with name := v } }
  | .email => { s with formData := { s.formData with email := v } }
  | .message => { s with formData := { s.formData with message := v } }

/-- The part of `handleSubmit` before the `await` (lines 540-554): `loading` is set, the popup
is hidden, and `emailjs.send` is called with the fields of the current `formData`. -/
def handleSubmitStart (s : State) : State :=
  { s with loading := true, popupVisible := false,
           calls := s.calls ++ [{ from_name := s.formData.name,
                                  from_email := s.formData.email,
                                  message := s.formData.message }],
           inFlight := s.inFlight + 1 }

/-- The rest of the `try` block (lines 556-559) once the relay call has settled: the state it
leaves and the value thrown, if any.  A rejected call throws at the `await`. -/
def tryBlock (s : State) : Outcome → State × Option RelayValue
  | .resolved result =>
    ({ s with console := s.console ++ [("Email sent successfully:", result.text)],
              popupMessage := successMessage, popupVisible := true,
              formData := { name := "", email := "", message := "" } }, none)
  | .rejected error => (s, some error)

/-- The `catch` block (lines 561-563): the state it leaves and the value thrown, if any. -/
def catchBlock (s : State) (error : RelayValue) : State × Option RelayValue :=
  ({ s with console := s.console ++ [("Email send failed:", error.text)],
            popupMessage := failureMessage, popupVisible := true }, none)

/-- The `finally` block (lines 565-567): `loading` is reset and a timeout that hides the popup
is started; it is never cleared. -/
def finallyBlock (s : State) : State :=
  { s with loading := false, timers := s.timers ++ [s.now + autoHideMs] }

/-- The part of `handleSubmit` after the `await` (lines 556-568), run when the relay call
settles: `try`, then `catch` when something was thrown, then `finally`; the function ends
rejected only when the `catch` block throws. -/
def handleSubmitSettle (s : State) (o : Outcome) : State × Completion :=
  let t := tryBlock s o
  let c := match t.2 with
    | none => (t.1, none)
    | some error => catchBlock t.1 error
  let f := finallyBlock c.1
  ({ f with inFlight := f.inFlight - 1 },
    match c.2 with
    | none => .fulfilled
    | some reason => .rejected reason)

/-- The clock moves on by `ms`: the timeouts that fall due fire, each calling
`setPopupVisible(false)` (line 567), and are gone. -/
def elapse (ms : Nat) (s : State) : State :=
  let now' := s.now + ms
  { s with now := now',
           timers := s.timers.filter fun t => now' < t,
           popupVisible := if (s.timers.filter fun t => t ≤ now').isEmpty then s.popupVisible
                           else false }

/-- What can happen to the form: an input changes, the form is submitted, a pending relay
call settles, the user presses Close on the popup (line 866) or on the modal guarded by
`sent` (line 897), time passes, or `App` is unmounted. -/
inductive Event where
  | change (field : Field) (value : String)
  | submit
  | settle (o : Outcome)
  | closePopup
  | closeSent
  | elapse (ms : Nat)
  | unmount
deriving DecidableEq, Repr

/-- The effect of one event.  The inputs and buttons exist only while `App` is mounted; a
relay call can settle only when one is pending; `App` has no effect cleanup for the relay
calls or the timeouts, so unmounting leaves them pending.  The cells of an unmounted
`App` are kept and the setter calls that still happen are applied to them, which shows the
updates attempted after the removal. -/
def handle (s : State) : Event → State
  | .change f v => if s.mounted then handleChange f v s else s
  | .submit => if s.mounted then handleSubmitStart s else s
  | .settle o => if s.inFlight = 0 then s else (handleSubmitSettle s o).1
  | .closePopup => if s.mounted then { s with popupVisible := false } else s
  | .closeSent => if s.mounted then { s with sent := false } else s
  | .elapse ms => elapse ms s
  | .unmount => { s with mounted := false }

/-- The state after the events `es`, oldest first, from the state `s`. -/
def exec (s : State) : List Event → State
  | [] => s
  | e :: es => exec (handle s e) es

/-- The events during which a popup is left alone: time passes or an input changes. -/
def Event.quiet : Event → Bool
  | .change _ _ => true
  | .elapse _ => true
  | _ => false

/-- The time that passes during the events `es`, in milliseconds. -/
def elapsed : List Event → Nat
  | [] => 0
  | .elapse ms :: es => ms + elapsed es
  | _ :: es => elapsed es

end App

/-! ## EducationRoadmap -/

namespace EducationRoadmap

/-- One entry of the table `roadmap` (lines 318-363), with the fields the animation reads;
`end_` is the field `end` of the source.  The values 0, 0.25, 0.5, 0.75 and 1 are exact
binary fractions, so they are the same numbers as rationals. -/
structure Entry where
  id : String
  start : ℚ
  end_ : ℚ
deriving DecidableEq, Repr

/-- The table `roadmap` (lines 318-363). -/
def roadmap : List Entry :=
  [{ id := "01", start := 0, end_ := 1 / 4 },
   { id := "02", start := 1 / 4, end_ := 1 / 2 },
   { id := "03", start := 1 / 2, end_ := 3 / 4 },
   { id := "04", start := 3 / 4, end_ := 1 }]

/-- The value `v` clamped to `[lo, hi]`, as `Math.min(Math.max(v, lo), hi)`. -/
def clamp (lo hi v : ℚ) : ℚ := min (max v lo) hi

/-- The position of `v` within the range from `a` to `b`, as a fraction. -/
def progress (a b v : ℚ) : ℚ := (v - a) / (b - a)

/-- Linear interpolation from `c` to `d`. -/
def mix (c d t : ℚ) : ℚ := c + (d - c) * t

/-- Modelled from the spec: `useTransform` of framer-motion, which is not under `src/`.
Section 4.4 describes it as linear interpolation over a sub-range of the progress value,
clamped at the boundaries of the sub-range: the value is clamped to the input range, its
position within the range is taken, and the output range is interpolated at it. -/
def transform (v : ℚ) (input output : ℚ × ℚ) : ℚ :=
  mix output.1 output.2 (progress input.1 input.2 (clamp input.1 input.2 v))

/-- The value `nodeActive` of an entry (line 390) at the progress value `p`. -/
def nodeActive (e : Entry) (p : ℚ) : ℚ := transform p (e.start, e.end_) (0, 1)

/-- The value `glowHeight` (line 316) at the progress value `p`, in percent. -/
def glowHeight (p : ℚ) : ℚ := transform p (0, 1) (0, 100)

end EducationRoadmap

end PortfolioApp

/-! # Theorems -/

namespace PortfolioApp

theorem substring_zero (s : JSString) (b : Int) : substring s 0 b = s.take b.toNat := by
  simp [substring, clampIndex, List.take_take]

theorem substring_zero_length (s : JSString) (b : Int) :
    (substring s 0 b).length = min b.toNat s.length := by
  simp [substring_zero]

namespace TypewriterLoop

theorem inv_init (p : Props) (h : p.texts ≠ []) : Inv p init := by
  obtain ⟨t, ts, ht⟩ := List.exists_cons_of_ne_nil h
  refine ⟨t, by simp [init, ht], by simp [init], by simp [init], ⟨0, by simp, by simp [init], by simp [init]⟩, by simp [init]⟩

theorem inv_fireTimer (p : Props) (s : State) (hd : s.mainDirty = false) (h : Inv p s) :
    Inv p (fireTimer s) := by
  obtain ⟨t, ht, h0, h1, ⟨j, hj, hdisp, hjs⟩, htm⟩ := h
  have htm := htm hd
  unfold fireTimer
  rcases hs : s.timer with _ | ⟨ms, cb⟩
  · simp [hs] at htm
  · rw [hs] at htm
    cases cb with
    | setDeletingTrue =>
      simp only at htm ⊢
      exact ⟨t, ht, h0, h1, ⟨j, hj, hdisp, hjs⟩, by simp [hd, htm.1]⟩
    | bumpSubIndex d =>
      simp only at htm ⊢
      obtain ⟨hdd, hlt, hgt⟩ := htm
      refine ⟨t, ht, ?_, ?_, ⟨j, hj, hdisp, by simp⟩, by simp⟩
      · cases d <;> simp_all <;> omega
      · cases d <;> simp_all <;> omega

theorem inv_flushEffects (p : Props) (r : State) (h : Inv p r) :
    ∃ s, flushEffects p r = some s ∧ Inv p s := by
  obtain ⟨t, ht, h0, h1, ⟨j, hj, hdisp, hjs⟩, htm⟩ := h
  have hlen : r.index < p.texts.length := by
    rcases Nat.lt_or_ge r.index p.texts.length with h | h
    · exact h
    · rw [List.getElem?_eq_none h] at ht; cases ht
  have hne : 0 < p.texts.length := by omega
  -- the value of `displayed` after the flush is the prefix of length `subIndex`
  have hd : ∃ j' : Nat, j' ≤ t.length ∧ (j' : Int) = r.subIndex ∧
      (if r.displayDirty then displayEffect p r else some r.displayed) = some (t.take j') := by
    by_cases hdd : r.displayDirty = true
    · refine ⟨r.subIndex.toNat, by omega, by omega, ?_⟩
      simp [hdd, displayEffect, ht, substring_zero]
    · have hdd' : r.displayDirty = false := by simpa using hdd
      refine ⟨j, hj, hjs hdd', ?_⟩
      simp [hdd', hdisp]
  obtain ⟨j', hj', hj's, hdv⟩ := hd
  unfold flushEffects
  simp only [hdv, Option.map_some']
  refine ⟨_, rfl, ?_⟩
  by_cases hm : r.mainDirty = true
  · simp only [hm, if_true]
    unfold mainEffect
    simp only [ht, Option.getD_some]
    rw [if_neg (by omega)]
    by_cases hhold : r.deleting = false ∧ r.subIndex = (t.length : Int)
    · rw [if_pos hhold]
      exact ⟨t, by simpa using ht, h0, h1, ⟨j', hj', rfl, fun _ => hj's⟩, by simp [hhold.1, hhold.2]⟩
    · rw [if_neg hhold]
      by_cases hadv : r.deleting = true ∧ r.subIndex = 0
      · rw [if_pos hadv]
        have hlt : (r.index + 1) % p.texts.length < p.texts.length := Nat.mod_lt _ hne
        obtain ⟨t', ht'⟩ : ∃ t', p.texts[(r.index + 1) % p.texts.length]? = some t' :=
          ⟨_, List.getElem?_eq_getElem hlt⟩
        have hj0 : j' = 0 := by omega
        refine ⟨t', by simpa using ht', by simp [hadv.2], by simp [hadv.2], ⟨0, by simp, by simp [hj0], by simp [hadv.2]⟩, by simp [hadv.1]⟩
      · rw [if_neg hadv]
        refine ⟨t, by simpa using ht, h0, h1, ⟨j', hj', rfl, fun _ => hj's⟩, ?_⟩
        simp only [ne_eq, not_true_eq_false, decide_False, Bool.or_self, true_implies]
        refine ⟨trivial, ?_, ?_⟩
        · intro hf
          have : r.subIndex ≠ (t.length : Int) := fun h => hhold ⟨hf, h⟩
          omega
        · intro hf
          have : r.subIndex ≠ 0 := fun h => hadv ⟨hf, h⟩
          omega
  · have hm' : r.mainDirty = false := by simpa using hm
    simp only [hm', Bool.false_eq_true, if_false]
    refine ⟨t, by simpa using ht, h0, h1, ⟨j', hj', rfl, fun _ => hj's⟩, ?_⟩
    simpa using htm hm'

theorem inv_step (p : Props) (s : State) (h : Inv p s) : ∃ s', step p s = some s' ∧ Inv p s' := by
  unfold step
  by_cases hd : (s.mainDirty || s.displayDirty) = true
  · rw [if_pos hd]; exact inv_flushEffects p s h
  · rw [if_neg hd]
    have hm : s.mainDirty = false := by
      cases hm : s.mainDirty <;> simp_all
    exact ⟨_, rfl, inv_fireTimer p s hm h⟩

theorem inv_markDirty (p : Props) (s : State) (h : Inv p s) :
    Inv p { s with mainDirty := true, displayDirty := true } := by
  obtain ⟨t, ht, h0, h1, ⟨j, hj, hdisp, _⟩, _⟩ := h
  exact ⟨t, ht, h0, h1, ⟨j, hj, hdisp, by simp⟩, by simp⟩

theorem inv_handle (p : Props) (s : State) (e : Event) (h : Inv p s) :
    ∃ s', handle p s e = some s' ∧ Inv p s' := by
  cases e with
  | advance => exact inv_step p s h
  | parentRender =>
    unfold handle
    by_cases hd : (s.mainDirty || s.displayDirty) = true
    · obtain ⟨s', hs', hi⟩ := inv_flushEffects p s h
      rw [if_pos hd, hs']
      exact ⟨_, rfl, inv_markDirty p s' hi⟩
    · rw [if_neg hd]
      exact ⟨_, rfl, inv_markDirty p s h⟩

theorem inv_exec (p : Props) (es : List Event) :
    ∀ s, Inv p s → ∃ s', exec p s es = some s' ∧ Inv p s' := by
  induction es with
  | nil => intro s h; exact ⟨s, rfl, h⟩
  | cons e es ih =>
    intro s h
    obtain ⟨s1, hs1, hi1⟩ := inv_handle p s e h
    obtain ⟨s2, hs2, hi2⟩ := ih s1 hi1
    exact ⟨s2, by simp [exec, hs1, hs2], hi2⟩

/-- C1, amended: for every non-empty `texts` and every list of events (steps of the
component and renders caused by the parent) from the first render, the run does not crash
and in the state it reaches `index` selects a text `t`, `0 ≤ subIndex ≤ length t`,
`displayed` is a prefix of `t` no longer than `t`, and `displayed` is
`t.substring(0, subIndex)` whenever the display effect is not due. -/
theorem typewriterLoop_displayed_prefix (p : Props) (es : List Event) (h : p.texts ≠ []) :
    ∃ s t, runEvents p es = some s ∧ p.texts[s.index]? = some t ∧
      0 ≤ s.subIndex ∧ s.subIndex ≤ (t.length : Int) ∧
      s.displayed <+: t ∧ s.displayed.length ≤ t.length ∧
      (s.displayDirty = false → s.displayed = substring t 0 s.subIndex) := by
  obtain ⟨s, hs, t, ht, h0, h1, ⟨j, hj, hdisp, hjs⟩, _⟩ := inv_exec p es init (inv_init p h)
  refine ⟨s, t, hs, ht, h0, h1, ?_, ?_, ?_⟩
  · rw [hdisp]; exact List.take_prefix j t
  · rw [hdisp]; simp
  · intro hd
    have := hjs hd
    rw [hdisp, substring_zero, ← this]
    simp

/-- Witness of C1: the scenario `["A", "BB"]` after a mount flush, a tick, a parent render
and a flush. -/
theorem typewriterLoop_displayed_prefix_witness :
    ∃ s t, runEvents scenario [.advance, .advance, .parentRender, .advance] = some s ∧
      scenario.texts[s.index]? = some t ∧
      0 ≤ s.subIndex ∧ s.subIndex ≤ (t.length : Int) ∧
      s.displayed <+: t ∧ s.displayed.length ≤ t.length ∧
      (s.displayDirty = false → s.displayed = substring t 0 s.subIndex) :=
  typewriterLoop_displayed_prefix scenario [.advance, .advance, .parentRender, .advance] (by decide)

/-- C1 as stated fails: with `texts = ["A"]`, after the mount flush and the first typing
tick the state has `subIndex = 1` while `displayed` is still the empty string, which is
not `"A".substring(0, 1)`; the display effect has yet to run.  And with the empty
sequence there is no `texts[index]`: the display effect throws in the mount flush. -/
theorem typewriterLoop_displayed_lags :
    (∃ s, run { texts := [['A']] } 2 = some s ∧ s.index = 0 ∧ s.subIndex = 1 ∧
      s.displayed = [] ∧ substring ['A'] 0 s.subIndex = ['A'] ∧
      s.displayed ≠ substring ['A'] 0 s.subIndex) ∧
    run { texts := [] } 1 = none := by
  refine ⟨⟨_, rfl, ?_⟩, ?_⟩ <;> decide

theorem runFrom_add (p : Props) (s : State) (a b : Nat) :
    runFrom p s (a + b) = (runFrom p s a).bind fun s' => runFrom p s' b := by
  induction b with
  | zero => simp [runFrom]
  | succ b ih =>
    rw [← Nat.add_assoc]
    simp only [runFrom, ih]
    cases runFrom p s a <;> simp

theorem runFrom_succ_left (p : Props) (s : State) (k : Nat) :
    runFrom p s (k + 1) = (step p s).bind fun s' => runFrom p s' k := by
  rw [Nat.add_comm, runFrom_add]
  simp [runFrom]

/-- A run of `k` steps is the run of `k` events `advance`. -/
theorem runEvents_replicate_advance (p : Props) (k : Nat) :
    runEvents p (List.replicate k .advance) = run p k := by
  have h : ∀ s, exec p s (List.replicate k .advance) = runFrom p s k := by
    induction k with
    | zero => intro s; rfl
    | succ k ih =>
      intro s
      rw [List.replicate_succ, exec, runFrom_succ_left]
      simp only [handle]
      cases step p s with
      | none => rfl
      | some s' => exact ih s'
  exact h init

theorem index_lt_of_getElem_some {p : Props} {i : Nat} {t : JSString}
    (ht : p.texts[i]? = some t) : i < p.texts.length := by
  rcases Nat.lt_or_ge i p.texts.length with h | h
  · exact h
  · rw [List.getElem?_eq_none h] at ht; cases ht

theorem step_entry (p : Props) (i : Nat) (t : JSString) (b : Bool)
    (ht : p.texts[i]? = some t) (hL : 1 ≤ t.length) :
    step p (entry i b) = some (typing p i t 0) := by
  have hi := index_lt_of_getElem_some ht
  have h0 : ¬ (0 : Int) = (t.length : Int) := by omega
  have h0' : ¬ 0 = t.length := by omega
  cases b <;>
    simp [step, entry, flushEffects, mainEffect, displayEffect, typing, ht, substring_zero,
      Nat.not_le.mpr hi, h0, h0']

theorem step_typing (p : Props) (i : Nat) (t : JSString) (k : Nat) (hk : k < t.length) :
    step p (typing p i t k) = some (typingTicked i t k) := by
  have h0 : ¬ k = t.length := by omega
  simp [step, typing, fireTimer, typingTicked, h0]

theorem step_typingTicked (p : Props) (i : Nat) (t : JSString) (k : Nat)
    (ht : p.texts[i]? = some t) :
    step p (typingTicked i t k) = some (typing p i t (k + 1)) := by
  have hi := index_lt_of_getElem_some ht
  by_cases h : k + 1 = t.length
  · have h' : ((k : Int) + 1 = (t.length : Int)) := by omega
    simp [step, typingTicked, flushEffects, mainEffect, displayEffect, typing, ht,
      substring_zero, Nat.not_le.mpr hi, h, h']
  · have h' : ¬ ((k : Int) + 1 = (t.length : Int)) := by omega
    simp [step, typingTicked, flushEffects, mainEffect, displayEffect, typing, ht,
      substring_zero, Nat.not_le.mpr hi, h, h']

theorem step_typing_full (p : Props) (i : Nat) (t : JSString) :
    step p (typing p i t t.length) = some (held i t) := by
  simp [step, typing, fireTimer, held]

theorem step_held (p : Props) (i : Nat) (t : JSString)
    (ht : p.texts[i]? = some t) (hL : 1 ≤ t.length) :
    step p (held i t) = some (erasing p i t t.length) := by
  have hi := index_lt_of_getElem_some ht
  have h0 : ¬ (t.length : Int) = 0 := by omega
  simp [step, held, flushEffects, mainEffect, erasing, ht, Nat.not_le.mpr hi, h0]

theorem step_erasing (p : Props) (i : Nat) (t : JSString) (k : Nat) :
    step p (erasing p i t (k + 1)) = some (erasingTicked i t k) := by
  simp [step, erasing, fireTimer, erasingTicked]

theorem step_erasingTicked (p : Props) (i : Nat) (t : JSString) (k : Nat)
    (ht : p.texts[i]? = some t) (hk : 1 ≤ k) :
    step p (erasingTicked i t k) = some (erasing p i t k) := by
  have hi := index_lt_of_getElem_some ht
  have h0 : ¬ (k : Int) = 0 := by omega
  simp [step, erasingTicked, flushEffects, mainEffect, displayEffect, erasing, ht,
    substring_zero, Nat.not_le.mpr hi, h0]

theorem step_erasingTicked_zero (p : Props) (i : Nat) (t : JSString)
    (ht : p.texts[i]? = some t) :
    step p (erasingTicked i t 0) =
      some (entry ((i + 1) % p.texts.length) (decide ((i + 1) % p.texts.length ≠ i))) := by
  have hi := index_lt_of_getElem_some ht
  simp [step, erasingTicked, flushEffects, mainEffect, displayEffect, entry, ht,
    substring_zero, Nat.not_le.mpr hi]

theorem runFrom_typing (p : Props) (i : Nat) (t : JSString) (b : Bool)
    (ht : p.texts[i]? = some t) (hL : 1 ≤ t.length) :
    ∀ k, k ≤ t.length → runFrom p (entry i b) (2 * k + 1) = some (typing p i t k) := by
  intro k
  induction k with
  | zero => intro _; simp [runFrom, step_entry p i t b ht hL]
  | succ k ih =>
    intro hk
    have e : 2 * (k + 1) + 1 = (2 * k + 1) + 1 + 1 := by ring
    rw [e, runFrom, runFrom, ih (by omega)]
    simp [step_typing p i t k (by omega), step_typingTicked p i t k ht]

theorem runFrom_erasing (p : Props) (i : Nat) (t : JSString) (b : Bool)
    (ht : p.texts[i]? = some t) (hL : 1 ≤ t.length) :
    ∀ k, k < t.length →
      runFrom p (entry i b) (2 * t.length + 3 + 2 * k) = some (erasing p i t (t.length - k)) := by
  intro k
  induction k with
  | zero =>
    intro _
    have e : 2 * t.length + 3 + 2 * 0 = (2 * t.length + 1) + 1 + 1 := by ring
    rw [e, runFrom, runFrom, runFrom_typing p i t b ht hL t.length (le_refl _)]
    simp [step_typing_full, step_held p i t ht hL]
  | succ k ih =>
    intro hk
    have e : 2 * t.length + 3 + 2 * (k + 1) = (2 * t.length + 3 + 2 * k) + 1 + 1 := by ring
    rw [e, runFrom, runFrom, ih (by omega)]
    obtain ⟨m, hm⟩ : ∃ m, t.length - k = m + 1 := ⟨t.length - k - 1, by omega⟩
    have hm' : t.length - (k + 1) = m := by omega
    rw [hm, hm']
    simp [step_erasing, step_erasingTicked p i t m ht (by omega)]

/-- C2: for every text `t = texts[i]` of length `L ≥ 1`, the run from the state in which the
component starts on `t` is: after step `2k + 1` (`k ≤ L`) the first `k` code units are
typed and shown, with the next typing tick pending, or the hold once `k = L`; after step
`2k + 2` (`k < L`) the tick has fired and the display effect is due; after step `2L + 2`
the hold has fired and `deleting` is set; after step `2L + 3 + 2k` (`k < L`) `L - k` code
units remain and are shown, with a deleting tick pending; after step `2L + 4 + 2k` the
tick has fired; and after step `4L + 3` the component starts on `texts[(i + 1) % n]`. -/
theorem typewriterLoop_cycle (p : Props) (i : Nat) (t : JSString) (b : Bool)
    (ht : p.texts[i]? = some t) (hL : 1 ≤ t.length) :
    (∀ k, k ≤ t.length → runFrom p (entry i b) (2 * k + 1) = some (typing p i t k)) ∧
    (∀ k, k < t.length → runFrom p (entry i b) (2 * k + 2) = some (typingTicked i t k)) ∧
    runFrom p (entry i b) (2 * t.length + 2) = some (held i t) ∧
    (∀ k, k < t.length →
      runFrom p (entry i b) (2 * t.length + 3 + 2 * k) = some (erasing p i t (t.length - k))) ∧
    (∀ k, k < t.length →
      runFrom p (entry i b) (2 * t.length + 4 + 2 * k)
        = some (erasingTicked i t (t.length - k - 1))) ∧
    runFrom p (entry i b) (4 * t.length + 3)
      = some (entry ((i + 1) % p.texts.length) (decide ((i + 1) % p.texts.length ≠ i))) := by
  have hA := runFrom_typing p i t b ht hL
  have hD := runFrom_erasing p i t b ht hL
  have hE : ∀ k, k < t.length →
      runFrom p (entry i b) (2 * t.length + 4 + 2 * k)
        = some (erasingTicked i t (t.length - k - 1)) := by
    intro k hk
    have e : 2 * t.length + 4 + 2 * k = (2 * t.length + 3 + 2 * k) + 1 := by ring
    obtain ⟨m, hm⟩ : ∃ m, t.length - k = m + 1 := ⟨t.length - k - 1, by omega⟩
    have hm' : t.length - k - 1 = m := by omega
    rw [e, runFrom, hD k hk, hm', hm]
    simp [step_erasing]
  refine ⟨hA, ?_, ?_, hD, hE, ?_⟩
  · intro k hk
    have e : 2 * k + 2 = (2 * k + 1) + 1 := by ring
    rw [e, runFrom, hA k (by omega)]
    simp [step_typing p i t k hk]
  · have e : 2 * t.length + 2 = (2 * t.length + 1) + 1 := by ring
    rw [e, runFrom, hA t.length (le_refl _)]
    simp [step_typing_full]
  · have e : 4 * t.length + 3 = (2 * t.length + 4 + 2 * (t.length - 1)) + 1 := by omega
    rw [e, runFrom, hE (t.length - 1) (by omega)]
    have e0 : t.length - (t.length - 1) - 1 = 0 := by omega
    rw [e0]
    simp [step_erasingTicked_zero p i t ht]

/-- Witness of C2: the second text `"BB"` of the scenario `["A", "BB"]`. -/
theorem typewriterLoop_cycle_witness :
    (∀ k, k ≤ 2 → runFrom scenario (entry 1 true) (2 * k + 1)
        = some (typing scenario 1 ['B', 'B'] k)) ∧
    (∀ k, k < 2 → runFrom scenario (entry 1 true) (2 * k + 2)
        = some (typingTicked 1 ['B', 'B'] k)) ∧
    runFrom scenario (entry 1 true) (2 * 2 + 2) = some (held 1 ['B', 'B']) ∧
    (∀ k, k < 2 → runFrom scenario (entry 1 true) (2 * 2 + 3 + 2 * k)
        = some (erasing scenario 1 ['B', 'B'] (2 - k))) ∧
    (∀ k, k < 2 → runFrom scenario (entry 1 true) (2 * 2 + 4 + 2 * k)
        = some (erasingTicked 1 ['B', 'B'] (2 - k - 1))) ∧
    runFrom scenario (entry 1 true) (4 * 2 + 3) = some (entry 0 true) :=
  typewriterLoop_cycle scenario 1 ['B', 'B'] true (by decide) (by decide)

theorem run_scenario_period : run scenario 18 = some init := by decide

theorem run_add_period (k : Nat) : run scenario (k + 18) = run scenario k := by
  unfold run
  rw [Nat.add_comm, runFrom_add]
  have := run_scenario_period
  unfold run at this
  rw [this]; rfl

theorem run_periods (m j : Nat) : run scenario (18 * m + j) = run scenario j := by
  induction m with
  | zero => simp
  | succ m ih =>
    have e : 18 * (m + 1) + j = (18 * m + j) + 18 := by ring
    rw [e, run_add_period, ih]

theorem displayedTrace_ne_nil (p : Props) (k : Nat) : displayedTrace p k ≠ [] := by
  induction k with
  | zero => simp [displayedTrace]
  | succ k ih => simp [displayedTrace, ih]

theorem displayedTrace_periods (m j : Nat) :
    displayedTrace scenario (18 * m + j)
      = displayedTrace scenario (18 * m) ++ (displayedTrace scenario j).tail := by
  induction j with
  | zero => simp [displayedTrace]
  | succ j ih =>
    rw [← Nat.add_assoc, displayedTrace, ih, Nat.add_assoc, run_periods, displayedTrace,
      List.tail_append_of_ne_nil (displayedTrace_ne_nil _ _), List.append_assoc]

theorem distinctRuns_ne_nil (a : JSString) (xs : List JSString) :
    distinctRuns (a :: xs) ≠ [] := by
  induction xs generalizing a with
  | nil => simp [distinctRuns]
  | cons b xs ih =>
    simp only [distinctRuns]
    split
    · exact ih b
    · simp

theorem distinctRuns_append (xs : List JSString) (a : JSString) (ys : List JSString) :
    distinctRuns (xs ++ a :: ys)
      = (distinctRuns (xs ++ [a])).dropLast ++ distinctRuns (a :: ys) := by
  induction xs with
  | nil => simp [distinctRuns]
  | cons x xs ih =>
    cases xs with
    | nil =>
      simp only [List.cons_append, List.nil_append, distinctRuns]
      split <;> simp [distinctRuns]
    | cons y zs =>
      simp only [List.cons_append] at ih ⊢
      simp only [distinctRuns]
      split
      · exact ih
      · rw [ih]
        have hne := distinctRuns_ne_nil y (zs ++ [a])
        rw [List.dropLast_cons_of_ne_nil hne]
        simp

theorem displayedTrace_scenario_tail :
    (displayedTrace scenario 18).tail
      = [[], [], ['A'], ['A'], ['A'], ['A'], [], [], [], ['B'], ['B'], ['B', 'B'],
         ['B', 'B'], ['B', 'B'], ['B', 'B'], ['B'], ['B'], []] := by
  decide

theorem distinctRuns_scenario_periods (m : Nat) :
    ∃ X, displayedTrace scenario (18 * m) = X ++ [[]] ∧
      distinctRuns (X ++ [[]]) = repeated scenarioCycle m ++ [[]] := by
  induction m with
  | zero => exact ⟨[], by simp [displayedTrace], by simp [distinctRuns, repeated]⟩
  | succ m ih =>
    obtain ⟨X, hX, hd⟩ := ih
    have e : 18 * (m + 1) = 18 * m + 18 := by ring
    refine ⟨X ++ [[], [], [], ['A'], ['A'], ['A'], ['A'], [], [], [], ['B'], ['B'], ['B', 'B'],
         ['B', 'B'], ['B', 'B'], ['B', 'B'], ['B'], ['B']], ?_, ?_⟩
    · rw [e, displayedTrace_periods, displayedTrace_scenario_tail, hX]
      simp
    · have : distinctRuns ([] :: [[], [], ['A'], ['A'], ['A'], ['A'], [], [], [], ['B'], ['B'],
          ['B', 'B'], ['B', 'B'], ['B', 'B'], ['B', 'B'], ['B'], ['B'], []])
          = scenarioCycle ++ [[]] := by decide
      rw [List.append_assoc, List.cons_append]
      simp only [List.cons_append, List.nil_append]
      rw [distinctRuns_append, hd, this]
      simp [repeated]

/-- C3, amended: in the scenario `texts = ["A", "BB"]`, typing speed 10, deleting speed 5,
delay 0, the run returns to the state of the first render every 18 steps, and over `m`
such periods the successive distinct values of `displayed` are `m` times
`""`, `"A"`, `""`, `"B"`, `"BB"`, `"B"`, followed by `""`. -/
theorem typewriterLoop_scenario_sequence :
    (∀ k, run scenario (k + 18) = run scenario k) ∧
    (∀ m, distinctRuns (displayedTrace scenario (18 * m)) = repeated scenarioCycle m ++ [[]]) := by
  refine ⟨run_add_period, fun m => ?_⟩
  obtain ⟨X, hX, hd⟩ := distinctRuns_scenario_periods m
  rw [hX, hd]

/-- C3 as stated fails: in the scenario the first eight distinct values of `displayed` are
`""`, `"A"`, `""`, `"B"`, `"BB"`, `"B"`, `""`, `"A"`, so the stated sequence
`""`, `"A"`, `""`, `"B"`, `"BB"`, `""`, `"A"` is not how the values start: `"B"` is
shown between `"BB"` and `""`. -/
theorem typewriterLoop_scenario_shows_B :
    distinctRuns (displayedTrace scenario 22)
        = [[], ['A'], [], ['B'], ['B', 'B'], ['B'], [], ['A']] ∧
      ¬ ([[], ['A'], [], ['B'], ['B', 'B'], [], ['A']]
          <+: distinctRuns (displayedTrace scenario 22)) := by
  decide

/-- C12, amended: when `texts[i]` is the empty string, the run from the state in which the
component starts on it is: the flush schedules the hold timeout of `delay` ms (no typing
tick); when that timeout fires `deleting` is set; the next flush moves on to
`texts[(i + 1) % n]` without a deleting tick; `displayed` is the empty string
throughout. -/
theorem typewriterLoop_empty_text (p : Props) (i : Nat) (b : Bool)
    (ht : p.texts[i]? = some []) :
    runFrom p (entry i b) 1
        = some { displayed := [], index := i, subIndex := 0, deleting := false,
                 timer := some ⟨p.delay, .setDeletingTrue⟩,
                 mainDirty := false, displayDirty := false } ∧
      runFrom p (entry i b) 2
        = some { displayed := [], index := i, subIndex := 0, deleting := true,
                 timer := none, mainDirty := true, displayDirty := false } ∧
      runFrom p (entry i b) 3
        = some (entry ((i + 1) % p.texts.length) (decide ((i + 1) % p.texts.length ≠ i))) := by
  have hi := index_lt_of_getElem_some ht
  have h1 : step p (entry i b)
      = some { displayed := [], index := i, subIndex := 0, deleting := false,
               timer := some ⟨p.delay, .setDeletingTrue⟩,
               mainDirty := false, displayDirty := false } := by
    cases b <;>
      simp [step, entry, flushEffects, mainEffect, displayEffect, ht, substring_zero,
        Nat.not_le.mpr hi]
  have h2 : step p
        { displayed := [], index := i, subIndex := 0, deleting := false,
          timer := some ⟨p.delay, .setDeletingTrue⟩,
          mainDirty := false, displayDirty := false }
      = some { displayed := [], index := i, subIndex := 0, deleting := true,
               timer := none, mainDirty := true, displayDirty := false } := by
    simp [step, fireTimer]
  have h3 : step p
        { displayed := [], index := i, subIndex := 0, deleting := true,
          timer := none, mainDirty := true, displayDirty := false }
      = some (entry ((i + 1) % p.texts.length) (decide ((i + 1) % p.texts.length ≠ i))) := by
    simp [step, flushEffects, mainEffect, entry, ht, Nat.not_le.mpr hi]
  refine ⟨?_, ?_, ?_⟩
  · simp [runFrom, h1]
  · simp [runFrom, h1, h2]
  · simp [runFrom, h1, h2, h3]

/-- Witness of C12: the texts `["", "A"]` from the first render. -/
theorem typewriterLoop_empty_text_witness :
    runFrom { texts := [[], ['A']] } (entry 0 true) 1
        = some { displayed := [], index := 0, subIndex := 0, deleting := false,
                 timer := some ⟨1500, .setDeletingTrue⟩,
                 mainDirty := false, displayDirty := false } ∧
      runFrom { texts := [[], ['A']] } (entry 0 true) 2
        = some { displayed := [], index := 0, subIndex := 0, deleting := true,
                 timer := none, mainDirty := true, displayDirty := false } ∧
      runFrom { texts := [[], ['A']] } (entry 0 true) 3
        = some (entry ((0 + 1) % 2) (decide ((0 + 1) % 2 ≠ 0))) :=
  typewriterLoop_empty_text { texts := [[], ['A']] } 0 true (by decide)

/-- C12 as stated fails: with `texts = ["", "A"]` and the default delay, the mount flush
leaves the hold timeout of 1500 ms pending on the empty first text, and the component is
still on that text, not deleting; it moves on only after that timeout has fired. -/
theorem typewriterLoop_empty_text_holds :
    ∃ s, run { texts := [[], ['A']] } 1 = some s ∧
      s.timer = some ⟨1500, .setDeletingTrue⟩ ∧ s.index = 0 ∧ s.deleting = false ∧
      s.mainDirty = false ∧ s.displayDirty = false := by
  refine ⟨_, rfl, ?_⟩
  decide

theorem clearTimeout_eq_nil (cleanup : Option Nat) (pending : List (Nat × Timer))
    (h : ∀ e ∈ pending, cleanup = some e.1) : clearTimeout cleanup pending = [] := by
  cases cleanup with
  | none =>
    cases pending with
    | nil => rfl
    | cons e es => exact absurd (h e (List.mem_cons_self _ _)) (by simp)
  | some i =>
    simp only [clearTimeout]
    rw [List.filter_eq_nil_iff]
    intro e he
    have := h e he
    simp only [Option.some.injEq] at this
    simp [this]

theorem flushEffects_timer_of_clean (p : Props) (r c : State) (hm : r.mainDirty = false)
    (h : flushEffects p r = some c) : c.timer = r.timer := by
  simp only [flushEffects, hm, Bool.false_eq_true, if_false, Option.map_eq_some'] at h
  obtain ⟨d, _, hc⟩ := h
  rw [← hc]

theorem fireTimer_timer (s : State) (h : s.timer ≠ none) : (fireTimer s).timer = none := by
  unfold fireTimer
  rcases hs : s.timer with _ | ⟨ms, cb⟩
  · exact absurd hs h
  · cases cb <;> rfl

theorem liveInv_init (p : Props) (h : p.texts ≠ []) : LiveInv p Live.init :=
  ⟨fun _ => inv_init p h, rfl, by simp [Live.init], by simp [Live.init]⟩

theorem liveInv_flush (p : Props) (l : Live) (h : LiveInv p l) (hm : l.mounted = true) :
    ∃ l', Live.flush p l = some l' ∧ LiveInv p l' ∧ l'.mounted = true := by
  obtain ⟨hinv, hcons, hclean, _⟩ := h
  obtain ⟨c, hc, hci⟩ := inv_flushEffects p l.cells (hinv hm)
  have hnil := clearTimeout_eq_nil l.cleanup l.pending hclean
  simp only [Live.flush, hc, Option.map_some']
  by_cases hd : l.cells.mainDirty = true
  · simp only [hd, if_true]
    rcases ht : c.timer with _ | t
    · refine ⟨_, rfl, ⟨fun _ => hci, ?_, ?_, ?_⟩, hm⟩
      · simp [hnil, ht]
      · simp [hnil]
      · intro h'; simp [hm] at h'
    · refine ⟨_, rfl, ⟨fun _ => hci, ?_, ?_, ?_⟩, hm⟩
      · simp [hnil, ht]
      · simp [hnil]
      · intro h'; simp [hm] at h'
  · have hd' : l.cells.mainDirty = false := by simpa using hd
    simp only [hd', Bool.false_eq_true, if_false]
    refine ⟨_, rfl, ⟨fun _ => hci, ?_, hclean, ?_⟩, hm⟩
    · rw [hcons, flushEffects_timer_of_clean p l.cells c hd' hc]
    · intro h'; simp [hm] at h'

theorem pending_eq_of_timer (l : Live) (t : Timer)
    (hcons : l.pending.map Prod.snd = l.cells.timer.toList) (ht : l.cells.timer = some t) :
    ∃ i, l.pending = [(i, t)] := by
  rw [ht] at hcons
  rcases hp : l.pending with _ | ⟨⟨i, t'⟩, rest⟩
  · rw [hp] at hcons; simp at hcons
  · rw [hp] at hcons
    simp only [List.map_cons, Option.toList_some, List.cons.injEq, List.map_eq_nil_iff] at hcons
    exact ⟨i, by rw [hcons.1, hcons.2]⟩

theorem liveInv_fire (p : Props) (l : Live) (id : Nat) (h : LiveInv p l)
    (hm : l.mounted = true) (hd : l.cells.mainDirty = false) :
    LiveInv p (Live.fire l id) ∧ (Live.fire l id).mounted = true := by
  obtain ⟨hinv, hcons, hclean, hun⟩ := h
  unfold Live.fire
  split
  · exact ⟨⟨hinv, hcons, hclean, hun⟩, hm⟩
  · rename_i e hf
    have hmem : e ∈ l.pending := List.mem_of_find?_eq_some hf
    have hid : e.1 = id := by simpa using List.find?_some hf
    rcases ht : l.cells.timer with _ | t
    · rw [ht] at hcons
      simp only [Option.toList_none, List.map_eq_nil_iff] at hcons
      rw [hcons] at hmem; cases hmem
    · obtain ⟨i, hp⟩ := pending_eq_of_timer l t hcons ht
      rw [hp] at hmem
      simp only [List.mem_singleton] at hmem
      have hcells : { l.cells with timer := some e.2 } = l.cells := by
        rw [hmem]; simp only; rw [← ht]
      simp only [hcells]
      have hi : i = id := by rw [hmem] at hid; exact hid
      refine ⟨⟨fun _ => inv_fireTimer p l.cells hd (hinv hm), ?_, ?_, ?_⟩, hm⟩
      · rw [fireTimer_timer l.cells (by rw [ht]; simp), hp]
        simp [hi]
      · rw [hp]; simp [hi]
      · intro h'; simp [hm] at h'

theorem liveInv_unmount (p : Props) (l : Live) (h : LiveInv p l) :
    LiveInv p (Live.unmount l) ∧ (Live.unmount l).pending = [] ∧
      (Live.unmount l).mounted = false := by
  obtain ⟨_, _, hclean, _⟩ := h
  have hnil := clearTimeout_eq_nil l.cleanup l.pending hclean
  refine ⟨⟨?_, ?_, ?_, ?_⟩, ?_, rfl⟩
  · intro h'; simp [Live.unmount] at h'
  · simp [Live.unmount, hnil]
  · simp [Live.unmount, hnil]
  · intro _; simp [Live.unmount, hnil]
  · simp [Live.unmount, hnil]

/-- After the teardown nothing changes any more. -/
theorem handle_unmounted (p : Props) (l : Live) (e : LiveEvent) (hm : l.mounted = false)
    (hp : l.pending = []) : Live.handle p l e = some l := by
  cases e with
  | flush => simp [Live.handle, hm]
  | fire id => simp [Live.handle, hm, Live.fire, hp]
  | parentRender => simp [Live.handle, hm]
  | unmount => simp [Live.handle, hm]

theorem exec_unmounted (p : Props) (es : List LiveEvent) (l : Live) (hm : l.mounted = false)
    (hp : l.pending = []) : Live.exec p l es = some l := by
  induction es with
  | nil => rfl
  | cons e es ih => simp [Live.exec, handle_unmounted p l e hm hp, ih]

theorem liveInv_markDirty (p : Props) (l : Live) (h : LiveInv p l) :
    LiveInv p { l with cells := { l.cells with mainDirty := true, displayDirty := true } } := by
  obtain ⟨hinv, hcons, hclean, hun⟩ := h
  exact ⟨fun hm => inv_markDirty p l.cells (hinv hm), hcons, hclean, hun⟩

theorem liveInv_handle (p : Props) (l : Live) (e : LiveEvent) (h : LiveInv p l) :
    ∃ l', Live.handle p l e = some l' ∧ LiveInv p l' := by
  by_cases hm : l.mounted = true
  · cases e with
    | flush =>
      simp only [Live.handle, hm, Bool.true_and]
      by_cases hd : (l.cells.mainDirty || l.cells.displayDirty) = true
      · obtain ⟨l', hl', hi, _⟩ := liveInv_flush p l h hm
        exact ⟨l', by rw [if_pos hd, hl'], hi⟩
      · exact ⟨l, by rw [if_neg hd], h⟩
    | fire id =>
      simp only [Live.handle, hm, Bool.true_and]
      by_cases hd : (l.cells.mainDirty || l.cells.displayDirty) = true
      · exact ⟨l, by rw [if_pos hd], h⟩
      · have hmd : l.cells.mainDirty = false := by
          cases hx : l.cells.mainDirty <;> simp_all
        exact ⟨_, by rw [if_neg hd], (liveInv_fire p l id h hm hmd).1⟩
    | parentRender =>
      simp only [Live.handle, hm, if_true]
      by_cases hd : (l.cells.mainDirty || l.cells.displayDirty) = true
      · obtain ⟨l', hl', hi, _⟩ := liveInv_flush p l h hm
        rw [if_pos hd, hl']
        exact ⟨_, rfl, liveInv_markDirty p l' hi⟩
      · rw [if_neg hd]
        exact ⟨_, rfl, liveInv_markDirty p l h⟩
    | unmount =>
      simp only [Live.handle, hm, if_true]
      by_cases hd : (l.cells.mainDirty || l.cells.displayDirty) = true
      · obtain ⟨l', hl', hi, _⟩ := liveInv_flush p l h hm
        rw [if_pos hd, hl']
        exact ⟨_, rfl, (liveInv_unmount p l' hi).1⟩
      · rw [if_neg hd]
        exact ⟨_, rfl, (liveInv_unmount p l h).1⟩
  · have hm' : l.mounted = false := by simpa using hm
    exact ⟨l, handle_unmounted p l e hm' (h.2.2.2 hm'), h⟩

theorem liveInv_exec (p : Props) (es : List LiveEvent) :
    ∀ l, LiveInv p l → ∃ l', Live.exec p l es = some l' ∧ LiveInv p l' := by
  induction es with
  | nil => intro l h; exact ⟨l, rfl, h⟩
  | cons e es ih =>
    intro l h
    obtain ⟨l1, h1, hi1⟩ := liveInv_handle p l e h
    obtain ⟨l2, h2, hi2⟩ := ih l1 hi1
    exact ⟨l2, by simp [Live.exec, h1, h2], hi2⟩

theorem pending_length_le_one (p : Props) (l : Live) (h : LiveInv p l) :
    l.pending.length ≤ 1 := by
  have := congrArg List.length h.2.1
  rw [List.length_map] at this
  rw [this]
  cases l.cells.timer <;> simp

theorem liveExec_append (p : Props) (es fs : List LiveEvent) :
    ∀ l, Live.exec p l (es ++ fs) = (Live.exec p l es).bind fun l' => Live.exec p l' fs := by
  induction es with
  | nil => intro l; rfl
  | cons e es ih =>
    intro l
    simp only [List.cons_append, Live.exec]
    cases Live.handle p l e with
    | none => rfl
    | some l1 => exact ih l1

theorem liveInv_teardown (p : Props) (l : Live) (h : LiveInv p l) :
    ∃ l', Live.handle p l .unmount = some l' ∧ LiveInv p l' ∧ l'.mounted = false ∧
      l'.pending = [] := by
  by_cases hm : l.mounted = true
  · simp only [Live.handle, hm, if_true]
    by_cases hd : (l.cells.mainDirty || l.cells.displayDirty) = true
    · obtain ⟨l1, hl1, hi, _⟩ := liveInv_flush p l h hm
      rw [if_pos hd, hl1]
      have := liveInv_unmount p l1 hi
      exact ⟨_, rfl, this.1, this.2.2, this.2.1⟩
    · rw [if_neg hd]
      have := liveInv_unmount p l h
      exact ⟨_, rfl, this.1, this.2.2, this.2.1⟩
  · have hm' : l.mounted = false := by simpa using hm
    exact ⟨l, handle_unmounted p l .unmount hm' (h.2.2.2 hm'), h, hm', h.2.2.2 hm'⟩

end TypewriterLoop

theorem slice_zero (s : JSString) (i : Nat) : slice s 0 (i : Int) = s.take (min i s.length) := by
  have h : ¬ ((i : Int) < 0) := by omega
  simp [slice, sliceIndex, h]

namespace TypewriterOnView

theorem revealed_flush (p : Props) (s : State) (he : s.hook.entered = true)
    (hd : s.revealDirty = true) : Revealed p 0 (flushEffects s) := by
  refine ⟨?_, ?_, ?_, ?_⟩
  · simp only [flushEffects]
    by_cases h : s.hook.dirty = true
    · simp [h, EnterOnce.effect, he]
    · simp [h, he]
  · simp [flushEffects, hd, revealEffect, he]
  · simp [flushEffects, hd, revealEffect, he]
  · have : ¬ (max p.text.length 1 ≤ 0) := by omega
    simp [flushEffects, hd, revealEffect, he, this]

theorem revealed_handle (p : Props) (k : Nat) (s : State) (e : Event) (h : Revealed p k s) :
    Revealed p (k + (if e = .tick then 1 else 0)) (handle p s e) := by
  obtain ⟨he, hd, ho, hi⟩ := h
  cases e with
  | flush =>
    simp only [reduceCtorEq, if_false, Nat.add_zero, handle]
    refine ⟨?_, ?_, ?_, ?_⟩
    · simp only [flushEffects]
      by_cases h : s.hook.dirty = true
      · simp [h, EnterOnce.effect, he]
      · simp [h, he]
    · simp [flushEffects, hd]
    · simp [flushEffects, hd, ho]
    · simp [flushEffects, hd, hi]
  | tick =>
    simp only [if_true, handle, tick]
    by_cases hk : max p.text.length 1 ≤ k
    · rw [if_pos hk] at hi
      simp only [hi]
      refine ⟨he, hd, ?_, ?_⟩
      · rw [ho]; congr 1; omega
      · rw [if_pos (by omega)]; exact hi
    · rw [if_neg hk] at hi
      simp only [hi]
      refine ⟨he, hd, ?_, ?_⟩
      · have := slice_zero p.text (k + 1)
        simpa using this
      · by_cases hn : p.text.length ≤ k + 1
        · rw [if_pos hn, if_pos (by omega)]
        · rw [if_neg hn, if_neg (by omega)]
  | callback b =>
    simp only [reduceCtorEq, if_false, Nat.add_zero, handle]
    cases b <;> simp [Revealed, EnterOnce.callback, he, hd, ho, hi]
  | parentRender =>
    simp only [reduceCtorEq, if_false, Nat.add_zero, handle]
    exact ⟨he, hd, ho, hi⟩

theorem revealed_exec (p : Props) (es : List Event) :
    ∀ k s, Revealed p k s → Revealed p (k + es.count .tick) (exec p s es) := by
  induction es with
  | nil => intro k s h; simpa [exec] using h
  | cons e es ih =>
    intro k s h
    have h1 := ih _ _ (revealed_handle p k s e h)
    rw [exec]
    by_cases he : e = .tick
    · subst he
      simp only [if_true] at h1
      rw [List.count_cons_self]
      rwa [Nat.add_assoc, Nat.add_comm 1] at h1
    · simp only [he, if_false, Nat.add_zero] at h1
      rw [List.count_cons_of_ne (Ne.symm he)]
      exact h1

/-- C4: from any state with `entered` false, let the observer deliver an intersecting entry
and the effects be flushed; then after any further events, `k` of them interval ticks, the
output is the prefix of `text` of length `min k n` (`n` the length of `text`), so it is the
full text from `n` ticks on and never changes afterwards; the interval is running with
counter `k` before `max n 1` ticks and cleared from then on; and `entered` stays true. -/
theorem typewriterOnView_reveal (p : Props) (s : State) (es : List Event)
    (h : s.hook.entered = false) :
    (exec p s (.callback true :: .flush :: es)).out
        = p.text.take (min (es.count .tick) p.text.length) ∧
      (exec p s (.callback true :: .flush :: es)).interval
        = (if max p.text.length 1 ≤ es.count .tick then none else some (es.count .tick)) ∧
      (p.text.length ≤ es.count .tick →
        (exec p s (.callback true :: .flush :: es)).out = p.text) ∧
      (exec p s (.callback true :: .flush :: es)).hook.entered = true := by
  have h1 : (handle p s (.callback true)).hook.entered = true := by
    simp [handle, EnterOnce.callback]
  have h2 : (handle p s (.callback true)).revealDirty = true := by
    simp [handle, EnterOnce.callback, h]
  have h3 := revealed_exec p es 0 _ (revealed_flush p _ h1 h2)
  rw [Nat.zero_add] at h3
  obtain ⟨he, _, ho, hi⟩ := h3
  refine ⟨ho, hi, ?_, he⟩
  intro hn
  have ho' : (exec p s (.callback true :: .flush :: es)).out
      = p.text.take (min (es.count .tick) p.text.length) := ho
  rw [ho', Nat.min_eq_right hn, List.take_length]

/-- Witness of C4: the text `"BB"`, an intersecting entry, the flush, and three ticks with a
parent render in between. -/
theorem typewriterOnView_reveal_witness :
    (exec { text := ['B', 'B'] } init
        (.callback true :: .flush :: [.tick, .flush, .parentRender, .tick, .tick])).out
        = List.take (min 3 2) ['B', 'B'] ∧
      (exec { text := ['B', 'B'] } init
        (.callback true :: .flush :: [.tick, .flush, .parentRender, .tick, .tick])).interval
        = (if max 2 1 ≤ 3 then none else some 3) ∧
      (2 ≤ 3 → (exec { text := ['B', 'B'] } init
        (.callback true :: .flush :: [.tick, .flush, .parentRender, .tick, .tick])).out
        = ['B', 'B']) ∧
      (exec { text := ['B', 'B'] } init
        (.callback true :: .flush :: [.tick, .flush, .parentRender, .tick, .tick])).hook.entered
        = true :=
  typewriterOnView_reveal { text := ['B', 'B'] } init
    [.tick, .flush, .parentRender, .tick, .tick] (by decide)

theorem flushEffects_entered (s : State) :
    (flushEffects s).hook.entered = s.hook.entered := by
  simp only [flushEffects]
  by_cases hd : s.hook.dirty = true
  · simp only [hd, if_true, EnterOnce.effect]
    split <;> rfl
  · simp [hd]

theorem tick_entered (p : Props) (s : State) : (tick p s).hook.entered = s.hook.entered := by
  simp only [tick]
  cases s.interval <;> rfl

theorem hidden_handle (p : Props) (s : State) (e : Event)
    (h : s.hook.entered = false → s.out = [] ∧ s.interval = none) :
    (handle p s e).hook.entered = false →
      (handle p s e).out = [] ∧ (handle p s e).interval = none := by
  cases e with
  | flush =>
    intro he
    have hs : s.hook.entered = false := by
      rw [handle, flushEffects_entered] at he; exact he
    obtain ⟨ho, hi⟩ := h hs
    simp only [handle, flushEffects]
    by_cases hr : s.revealDirty = true
    · simp [hr, revealEffect, hs, ho]
    · simp [hr, ho, hi]
  | tick =>
    intro he
    have hs : s.hook.entered = false := by
      rw [handle, tick_entered] at he; exact he
    obtain ⟨ho, hi⟩ := h hs
    simp [handle, tick, hi, ho]
  | callback b =>
    intro he
    cases b with
    | false =>
      have hs : s.hook.entered = false := by simpa [handle, EnterOnce.callback] using he
      simpa [handle, EnterOnce.callback] using h hs
    | true => simp [handle, EnterOnce.callback] at he
  | parentRender =>
    intro he
    have hs : s.hook.entered = false := by simpa [handle] using he
    simpa [handle] using h hs

theorem hidden_exec (p : Props) (es : List Event) :
    ∀ s, (s.hook.entered = false → s.out = [] ∧ s.interval = none) →
      (exec p s es).hook.entered = false →
        (exec p s es).out = [] ∧ (exec p s es).interval = none := by
  induction es with
  | nil => intro s h; simpa [exec] using h
  | cons e es ih =>
    intro s h
    rw [exec]
    exact ih _ (hidden_handle p s e h)

/-- C5: in every state a mounted `TypewriterOnView` reaches from its first render in which
`entered` is still false, the output is the empty string and no interval is running. -/
theorem typewriterOnView_silent_before_entered (p : Props) (es : List Event)
    (h : (exec p init es).hook.entered = false) :
    (exec p init es).out = [] ∧ (exec p init es).interval = none :=
  hidden_exec p es init (by simp [init]) h

/-- Witness of C5: the text `"BB"` after a flush, a non-intersecting entry, a tick, a parent
render and another flush. -/
theorem typewriterOnView_silent_before_entered_witness :
    (exec { text := ['B', 'B'] } init
        [.flush, .callback false, .tick, .parentRender, .flush]).hook.entered = false ∧
      (exec { text := ['B', 'B'] } init
        [.flush, .callback false, .tick, .parentRender, .flush]).out = [] ∧
      (exec { text := ['B', 'B'] } init
        [.flush, .callback false, .tick, .parentRender, .flush]).interval = none :=
  ⟨by decide, typewriterOnView_silent_before_entered { text := ['B', 'B'] }
    [.flush, .callback false, .tick, .parentRender, .flush] (by decide)⟩

end TypewriterOnView

namespace EnterOnce

theorem entered_handle (attached : Bool) (s : State) (e : Event) (h : s.entered = true) :
    (handle attached s e).entered = true := by
  cases e with
  | flush =>
    simp only [handle]
    by_cases hd : s.dirty = true
    · simp [hd, effect, h]
    · simp [hd, h]
  | callback b => cases b <;> simp [handle, callback, h]
  | render c => simp [handle, h]

theorem entered_exec (attached : Bool) (es : List Event) :
    ∀ s, s.entered = true → (exec attached s es).entered = true := by
  induction es with
  | nil => intro s h; simpa [exec] using h
  | cons e es ih => intro s h; rw [exec]; exact ih _ (entered_handle attached s e h)

theorem rises_of_entered (attached : Bool) (es : List Event) :
    ∀ s, s.entered = true → rises attached s es = 0 := by
  induction es with
  | nil => intro s _; rfl
  | cons e es ih =>
    intro s h
    simp [rises, h, ih _ (entered_handle attached s e h)]

theorem rises_le_one (attached : Bool) (es : List Event) :
    ∀ s, rises attached s es ≤ 1 := by
  induction es with
  | nil => intro s; simp [rises]
  | cons e es ih =>
    intro s
    simp only [rises]
    by_cases h : s.entered = false ∧ (handle attached s e).entered = true
    · rw [if_pos h, rises_of_entered attached es _ h.2]
    · rw [if_neg h]; have := ih (handle attached s e); omega

theorem falls_eq_zero (attached : Bool) (es : List Event) :
    ∀ s, falls attached s es = 0 := by
  induction es with
  | nil => intro s; rfl
  | cons e es ih =>
    intro s
    simp only [falls, ih, Nat.add_zero]
    by_cases h : s.entered = true
    · simp [entered_handle attached s e h]
    · simp [h]

theorem disconnected_handle (attached : Bool) (s : State) (e : Event)
    (h : s.entered = true) (ho : s.observing = false) :
    (handle attached s e).observing = false := by
  cases e with
  | flush =>
    simp only [handle]
    by_cases hd : s.dirty = true
    · simp [hd, effect, h]
    · simp [hd, ho]
  | callback b => cases b <;> simp [handle, callback, ho]
  | render c => simp [handle, ho]

theorem disconnected_exec (attached : Bool) (es : List Event) :
    ∀ s, s.entered = true → s.observing = false →
      (exec attached s es).observing = false := by
  induction es with
  | nil => intro s _ ho; simpa [exec] using ho
  | cons e es ih =>
    intro s h ho
    rw [exec]
    exact ih _ (entered_handle attached s e h) (disconnected_handle attached s e h ho)

/-- C6: for every list of events of one `useEnterOnce` instance from its first render,
`entered` switches from false to true at most once and never from true to false; an
intersecting entry leaves `entered` set and the observer disconnected, whatever the state
before; from then on `entered` stays set and no observer is connected, whatever events
follow (the effect makes no new observer); and a later callback leaves the state
unchanged. -/
theorem useEnterOnce_latch (attached : Bool) (es : List Event) :
    rises attached init es ≤ 1 ∧ falls attached init es = 0 ∧
      (∀ s, (handle attached s (.callback true)).entered = true ∧
        (handle attached s (.callback true)).observing = false) ∧
      (∀ s later, (exec attached (handle attached s (.callback true)) later).entered = true ∧
        (exec attached (handle attached s (.callback true)) later).observing = false) ∧
      (∀ s b, s.entered = true → s.observing = false → handle attached s (.callback b) = s) := by
  refine ⟨rises_le_one attached es init, falls_eq_zero attached es init, ?_, ?_, ?_⟩
  · intro s; simp [handle, callback]
  · intro s later
    have h1 : (handle attached s (.callback true)).entered = true := by simp [handle, callback]
    have h2 : (handle attached s (.callback true)).observing = false := by
      simp [handle, callback]
    exact ⟨entered_exec attached later _ h1, disconnected_exec attached later _ h1 h2⟩
  · intro s b h ho
    cases b
    · simp [handle, callback]
    · cases s
      simp_all [handle, callback]

/-- Witness of C6: an attached element, a flush, a non-intersecting and an intersecting
entry, a render with new options, a flush and one more intersecting entry. -/
theorem useEnterOnce_latch_witness :
    rises true init [.flush, .callback false, .callback true, .render true, .flush,
        .callback true] ≤ 1 ∧
      falls true init [.flush, .callback false, .callback true, .render true, .flush,
        .callback true] = 0 ∧
      (∀ s, (handle true s (.callback true)).entered = true ∧
        (handle true s (.callback true)).observing = false) ∧
      (∀ s later, (exec true (handle true s (.callback true)) later).entered = true ∧
        (exec true (handle true s (.callback true)) later).observing = false) ∧
      (∀ s b, s.entered = true → s.observing = false → handle true s (.callback b) = s) :=
  useEnterOnce_latch true [.flush, .callback false, .callback true, .render true, .flush,
    .callback true]

end EnterOnce

namespace TypewriterOnView

theorem clearInterval_eq_nil (cleanup : Option Nat) (running : List Nat)
    (h : running = [] ∨ ∃ i, running = [i] ∧ cleanup = some i) :
    clearInterval cleanup running = [] := by
  rcases h with h | ⟨i, h, hc⟩
  · subst h; cases cleanup <;> rfl
  · subst h; subst hc; simp [clearInterval]

theorem flushEffects_interval_of_clean (s : State) (h : s.revealDirty = false) :
    (flushEffects s).interval = s.interval := by
  simp [flushEffects, h]

theorem viewInv_init : LiveInv Live.init :=
  ⟨Or.inl rfl, fun _ => rfl, fun _ => rfl⟩

theorem viewInv_flush (l : Live) (h : LiveInv l) (hm : l.mounted = true) :
    LiveInv (Live.flush l) ∧ (Live.flush l).mounted = true := by
  obtain ⟨h1, h2, _⟩ := h
  have hnil := clearInterval_eq_nil l.cleanup l.running h1
  unfold Live.flush
  by_cases hd : l.cells.revealDirty = true
  · rw [if_pos hd]
    by_cases hi : (flushEffects l.cells).interval.isSome = true
    · rw [if_pos hi]
      refine ⟨⟨Or.inr ⟨l.nextId, by simp [hnil], rfl⟩, ?_, ?_⟩, hm⟩
      · intro hn
        have hn' : (flushEffects l.cells).interval = none := hn
        simp [hn'] at hi
      · intro h'; simp [hm] at h'
    · rw [if_neg hi]
      refine ⟨⟨Or.inl hnil, fun _ => hnil, fun _ => hnil⟩, hm⟩
  · have hd' : l.cells.revealDirty = false := by simpa using hd
    rw [if_neg hd]
    refine ⟨⟨h1, ?_, ?_⟩, hm⟩
    · intro hn
      apply h2
      rw [← flushEffects_interval_of_clean l.cells hd']
      exact hn
    · intro h'; simp [hm] at h'

theorem viewInv_tick (p : Props) (l : Live) (id : Nat) (h : LiveInv l) :
    LiveInv (Live.tick p l id) := by
  obtain ⟨h1, h2, h3⟩ := h
  unfold Live.tick
  by_cases hid : id ∈ l.running
  · rw [if_pos hid]
    rcases h1 with h1 | ⟨i, h1, hc⟩
    · rw [h1] at hid; cases hid
    · have hi : id = i := by rw [h1] at hid; simpa using hid
      have hmnt : l.mounted = true := by
        cases hm : l.mounted
        · have := h3 hm; rw [this] at hid; cases hid
        · rfl
      by_cases hs : (tick p l.cells).interval.isSome = true
      · simp only [hs, if_true]
        refine ⟨Or.inr ⟨i, h1, hc⟩, ?_, ?_⟩
        · intro hn
          have hn' : (tick p l.cells).interval = none := hn
          simp [hn'] at hs
        · intro h'; simp [hmnt] at h'
      · simp only [hs]
        have hfil : (l.running.filter fun j => decide (j ≠ id)) = [] := by
          rw [h1, hi]; simp
        simp only [Bool.false_eq_true, if_false, hfil]
        exact ⟨Or.inl rfl, fun _ => rfl, fun _ => rfl⟩
  · rw [if_neg hid]
    exact ⟨h1, h2, h3⟩

theorem viewInv_unmount (l : Live) (h : LiveInv l) :
    LiveInv (Live.unmount l) ∧ (Live.unmount l).running = [] ∧
      (Live.unmount l).mounted = false := by
  have hnil := clearInterval_eq_nil l.cleanup l.running h.1
  refine ⟨⟨Or.inl ?_, fun _ => ?_, fun _ => ?_⟩, ?_, rfl⟩ <;> simp [Live.unmount, hnil]

theorem viewInv_handle (p : Props) (l : Live) (e : LiveEvent) (h : LiveInv l) :
    LiveInv (Live.handle p l e) := by
  cases e with
  | flush =>
    simp only [Live.handle]
    by_cases hm : l.mounted = true
    · rw [if_pos hm]; exact (viewInv_flush l h hm).1
    · rw [if_neg hm]; exact h
  | tick id => exact viewInv_tick p l id h
  | callback b =>
    simp only [Live.handle]
    by_cases hm : l.mounted = true
    · rw [if_pos hm]
      obtain ⟨h1, h2, h3⟩ := h
      exact ⟨h1, fun hn => h2 (by simpa [handle] using hn), h3⟩
    · rw [if_neg hm]; exact h
  | parentRender =>
    simp only [Live.handle]
    by_cases hm : l.mounted = true
    · rw [if_pos hm]
      obtain ⟨h1, h2, h3⟩ := h
      exact ⟨h1, fun hn => h2 (by simpa [handle] using hn), h3⟩
    · rw [if_neg hm]; exact h
  | unmount =>
    simp only [Live.handle]
    by_cases hm : l.mounted = true
    · rw [if_pos hm]; exact (viewInv_unmount _ (viewInv_flush l h hm).1).1
    · rw [if_neg hm]; exact h

theorem viewInv_exec (p : Props) (es : List LiveEvent) :
    ∀ l, LiveInv l → LiveInv (Live.exec p l es) := by
  induction es with
  | nil => intro l h; exact h
  | cons e es ih => intro l h; exact ih _ (viewInv_handle p l e h)

/-- After the teardown nothing changes any more. -/
theorem view_handle_unmounted (p : Props) (l : Live) (e : LiveEvent) (hm : l.mounted = false)
    (hr : l.running = []) : Live.handle p l e = l := by
  cases e with
  | flush => simp [Live.handle, hm]
  | tick id => simp [Live.handle, Live.tick, hr]
  | callback b => simp [Live.handle, hm]
  | parentRender => simp [Live.handle, hm]
  | unmount => simp [Live.handle, hm]

theorem view_exec_unmounted (p : Props) (es : List LiveEvent) (l : Live) (hm : l.mounted = false)
    (hr : l.running = []) : Live.exec p l es = l := by
  induction es with
  | nil => rfl
  | cons e es ih => simp [Live.exec, view_handle_unmounted p l e hm hr, ih]

theorem exec_append (p : Props) (es fs : List LiveEvent) :
    ∀ l, Live.exec p l (es ++ fs) = Live.exec p (Live.exec p l es) fs := by
  induction es with
  | nil => intro l; rfl
  | cons e es ih => intro l; simp [Live.exec, ih]

theorem unmount_mounted (p : Props) (l : Live) :
    (Live.handle p l .unmount).mounted = false := by
  simp only [Live.handle]
  by_cases hm : l.mounted = true
  · rw [if_pos hm]; rfl
  · rw [if_neg hm]; simpa using hm

end TypewriterOnView

/-- C14: for every non-empty `texts` and every list of events of a `TypewriterLoop` and its
timeouts from the first render, the run does not crash and at most one timeout is
pending; after the teardown the component is unmounted, no timeout is pending, and
whatever events follow leave the whole state, `subIndex` and `deleting` included, as the
teardown left it.  For every list of events of a `TypewriterOnView` and its intervals from
the first render, at most one interval is running; after the teardown none is running and
whatever events follow leave the whole state, the output included, as the teardown left
it. -/
theorem timers_single_and_cleared (p : TypewriterLoop.Props)
    (es later : List TypewriterLoop.LiveEvent) (q : TypewriterOnView.Props)
    (fs later' : List TypewriterOnView.LiveEvent) (h : p.texts ≠ []) :
    (∃ l, TypewriterLoop.Live.exec p TypewriterLoop.Live.init es = some l ∧
        l.pending.length ≤ 1) ∧
      (∃ l, TypewriterLoop.Live.exec p TypewriterLoop.Live.init (es ++ [.unmount]) = some l ∧
        l.mounted = false ∧ l.pending = [] ∧
        TypewriterLoop.Live.exec p TypewriterLoop.Live.init (es ++ [.unmount] ++ later)
          = some l) ∧
      (TypewriterOnView.Live.exec q TypewriterOnView.Live.init fs).running.length ≤ 1 ∧
      (TypewriterOnView.Live.exec q TypewriterOnView.Live.init (fs ++ [.unmount])).mounted
        = false ∧
      (TypewriterOnView.Live.exec q TypewriterOnView.Live.init (fs ++ [.unmount])).running
        = [] ∧
      TypewriterOnView.Live.exec q TypewriterOnView.Live.init (fs ++ [.unmount] ++ later')
        = TypewriterOnView.Live.exec q TypewriterOnView.Live.init (fs ++ [.unmount]) := by
  obtain ⟨l, hl, hi⟩ := TypewriterLoop.liveInv_exec p es _ (TypewriterLoop.liveInv_init p h)
  obtain ⟨l', hl', hi', hm', hp'⟩ := TypewriterLoop.liveInv_teardown p l hi
  have hun : TypewriterLoop.Live.exec p TypewriterLoop.Live.init (es ++ [.unmount])
      = some l' := by
    rw [TypewriterLoop.liveExec_append, hl]
    simp [TypewriterLoop.Live.exec, hl']
  have hq := TypewriterOnView.viewInv_exec q fs _ TypewriterOnView.viewInv_init
  have hqm : (TypewriterOnView.Live.exec q TypewriterOnView.Live.init
      (fs ++ [.unmount])).mounted = false := by
    rw [TypewriterOnView.exec_append]
    exact TypewriterOnView.unmount_mounted q _
  have hqi := TypewriterOnView.viewInv_exec q (fs ++ [.unmount]) _
    TypewriterOnView.viewInv_init
  refine ⟨⟨l, hl, TypewriterLoop.pending_length_le_one p l hi⟩, ⟨l', hun, hm', hp', ?_⟩,
    ?_, hqm, hqi.2.2 hqm, ?_⟩
  · rw [TypewriterLoop.liveExec_append, hun]
    exact TypewriterLoop.exec_unmounted p later l' hm' hp'
  · rcases hq.1 with h0 | ⟨i, h1, _⟩
    · rw [h0]; simp
    · rw [h1]; simp
  · rw [TypewriterOnView.exec_append]
    exact TypewriterOnView.view_exec_unmounted q later' _ hqm (hqi.2.2 hqm)

/-- Witness of C14: the scenario `["A", "BB"]` with a tick, a parent render and a late
firing after the teardown, and the text `"BB"` revealed by one tick with a late tick after
the teardown. -/
theorem timers_single_and_cleared_witness :
    (∃ l, TypewriterLoop.Live.exec TypewriterLoop.scenario TypewriterLoop.Live.init
          [.flush, .fire 0, .flush, .parentRender, .flush] = some l ∧
        l.pending.length ≤ 1) ∧
      (∃ l, TypewriterLoop.Live.exec TypewriterLoop.scenario TypewriterLoop.Live.init
          ([.flush, .fire 0, .flush, .parentRender, .flush] ++ [.unmount]) = some l ∧
        l.mounted = false ∧ l.pending = [] ∧
        TypewriterLoop.Live.exec TypewriterLoop.scenario TypewriterLoop.Live.init
          ([.flush, .fire 0, .flush, .parentRender, .flush] ++ [.unmount] ++ [.fire 2, .flush])
          = some l) ∧
      (TypewriterOnView.Live.exec { text := ['B', 'B'] } TypewriterOnView.Live.init
          [.flush, .callback true, .flush, .tick 0]).running.length ≤ 1 ∧
      (TypewriterOnView.Live.exec { text := ['B', 'B'] } TypewriterOnView.Live.init
          ([.flush, .callback true, .flush, .tick 0] ++ [.unmount])).mounted = false ∧
      (TypewriterOnView.Live.exec { text := ['B', 'B'] } TypewriterOnView.Live.init
          ([.flush, .callback true, .flush, .tick 0] ++ [.unmount])).running = [] ∧
      TypewriterOnView.Live.exec { text := ['B', 'B'] } TypewriterOnView.Live.init
          ([.flush, .callback true, .flush, .tick 0] ++ [.unmount] ++ [.tick 0, .flush])
        = TypewriterOnView.Live.exec { text := ['B', 'B'] } TypewriterOnView.Live.init
          ([.flush, .callback true, .flush, .tick 0] ++ [.unmount]) :=
  timers_single_and_cleared TypewriterLoop.scenario
    [.flush, .fire 0, .flush, .parentRender, .flush] [.fire 2, .flush]
    { text := ['B', 'B'] } [.flush, .callback true, .flush, .tick 0] [.tick 0, .flush]
    (by decide)

namespace DarkMode

theorem themeEffect_theme (s : State) : (themeEffect s).theme = some (themeName s.dark) := by
  unfold themeEffect themeName
  split <;> rfl

theorem initialDark_themeName (d : DarkValue) (sys : Option Bool) :
    initialDark (some (themeName d)) sys = .bool d.truthy := by
  unfold themeName
  cases h : d.truthy <;> simp [initialDark]

/-- C11: the theme effect is due at the first render and after every toggle; run for a state,
it stores "dark" under the key "theme" when `dark` is truthy and "light" otherwise, so the
stored value follows `dark` after the mount flush and after every toggle and flush; and
for every boolean `dark` and every system preference, the initialiser of `useDarkMode`
applied to the value just stored yields the same `dark`. -/
theorem useDarkMode_write_read (pref : Option String) (sys sys' : Option Bool) (root : Bool)
    (s : State) (b : Bool) :
    (init pref sys root).dirty = true ∧ (handle s .toggle).dirty = true ∧
      (themeEffect s).theme = some (if s.dark.truthy then "dark" else "light") ∧
      (exec (init pref sys root) [.flush]).theme
        = some (if (initialDark pref sys).truthy then "dark" else "light") ∧
      (exec s [.toggle, .flush]).theme = some (if s.dark.truthy then "light" else "dark") ∧
      initialDark (some (if b then "dark" else "light")) sys' = .bool b ∧
      initialDark (themeEffect { s with dark := .bool b }).theme sys' = .bool b := by
  refine ⟨rfl, rfl, themeEffect_theme s, ?_, ?_, ?_, ?_⟩
  · simp only [exec, handle, init, if_true]
    exact themeEffect_theme _
  · simp only [exec, handle, if_true]
    rw [themeEffect_theme]
    rcases hd : s.dark with b' | _
    · cases b' <;> rfl
    · rfl
  · exact initialDark_themeName (.bool b) sys'
  · rw [themeEffect_theme]
    exact initialDark_themeName (.bool b) sys'

/-- C19: when the stored value is a non-empty string `v`, the initial `dark` is the boolean
`v = "dark"`, whatever the system preference; when nothing is stored, or the empty string,
it is the `matches` of the system's dark-scheme query, or `undefined` when
`window.matchMedia` is missing, so the theme is dark exactly when the system reports a
dark colour scheme. -/
theorem initialDark_cases (pref : Option String) (sys : Option Bool) :
    (∀ v, pref = some v → v ≠ "" →
        initialDark pref sys = .bool (decide (v = "dark")) ∧
          ((initialDark pref sys).truthy = true ↔ v = "dark")) ∧
      (pref = none ∨ pref = some "" →
        initialDark pref sys = systemDark sys ∧
          ((initialDark pref sys).truthy = true ↔ sys = some true) ∧
          (sys = none → (initialDark pref sys).truthy = false)) := by
  constructor
  · intro v hp hv
    subst hp
    simp [initialDark, hv, DarkValue.truthy]
  · intro hp
    have h : initialDark pref sys = systemDark sys := by
      rcases hp with h | h <;> subst h <;> simp [initialDark]
    rw [h]
    refine ⟨rfl, ?_, ?_⟩
    · cases sys with
      | none => simp [systemDark, DarkValue.truthy]
      | some m => simp [systemDark, DarkValue.truthy]
    · intro hs; subst hs; rfl

/-- Witness of C19: the stored value "blue" with a system that prefers dark gives light, and
no stored value with a system that prefers dark gives dark. -/
theorem initialDark_cases_witness :
    (initialDark (some "blue") (some true) = .bool (decide ("blue" = "dark")) ∧
        ((initialDark (some "blue") (some true)).truthy = true ↔ "blue" = "dark")) ∧
      (initialDark none (some true) = systemDark (some true) ∧
        ((initialDark none (some true)).truthy = true ↔ some true = some true) ∧
        (some true = none → (initialDark none (some true)).truthy = false)) :=
  ⟨(initialDark_cases (some "blue") (some true)).1 "blue" rfl (by decide),
    (initialDark_cases none (some true)).2 (Or.inl rfl)⟩

end DarkMode

namespace App

/-- C7: for every state `s` in which `handleSubmit` starts and whatever happens between the
call of the relay and its success, the state `handleSubmit` leaves has the three fields
empty, the success message as `popupMessage`, `popupVisible` true and `loading` false, and
`handleSubmit` ends fulfilled; for the fields "Jane", "jane@x.com", "Hello" the whole
state is given. -/
theorem handleSubmit_success (s : State) (between : List Event) (result : RelayValue) :
    (handleSubmitSettle (exec (handleSubmitStart s) between) (.resolved result)).1.formData
        = { name := "", email := "", message := "" } ∧
      (handleSubmitSettle (exec (handleSubmitStart s) between) (.resolved result)).1.popupMessage
        = successMessage ∧
      (handleSubmitSettle (exec (handleSubmitStart s) between) (.resolved result)).1.popupVisible
        = true ∧
      (handleSubmitSettle (exec (handleSubmitStart s) between) (.resolved result)).1.loading
        = false ∧
      (handleSubmitSettle (exec (handleSubmitStart s) between) (.resolved result)).2
        = .fulfilled ∧
      exec init [.change .name "Jane", .change .email "jane@x.com", .change .message "Hello",
          .submit, .settle (.resolved { text := some "OK" })]
        = { formData := { name := "", email := "", message := "" }, sent := false,
            loading := false, popupMessage := successMessage, popupVisible := true,
            calls := [{ from_name := "Jane", from_email := "jane@x.com", message := "Hello" }],
            inFlight := 0, timers := [3000], now := 0,
            console := [("Email sent successfully:", some "OK")], mounted := true } := by
  refine ⟨rfl, rfl, rfl, rfl, rfl, ?_⟩
  decide

/-- C8: for every state `s` in which `handleSubmit` starts, whatever happens between the call
of the relay and its failure, and every error, the state `handleSubmit` leaves has the
fields of `formData` as they were when the call failed (as they were before the submit
when nothing happened in between), the failure message as `popupMessage`, `popupVisible`
true and `loading` false, and `handleSubmit` ends fulfilled, not rejected. -/
theorem handleSubmit_failure (s : State) (between : List Event) (error : RelayValue) :
    (handleSubmitSettle (exec (handleSubmitStart s) between) (.rejected error)).1.formData
        = (exec (handleSubmitStart s) between).formData ∧
      (handleSubmitSettle (handleSubmitStart s) (.rejected error)).1.formData = s.formData ∧
      (handleSubmitSettle (exec (handleSubmitStart s) between) (.rejected error)).1.popupMessage
        = failureMessage ∧
      (handleSubmitSettle (exec (handleSubmitStart s) between) (.rejected error)).1.popupVisible
        = true ∧
      (handleSubmitSettle (exec (handleSubmitStart s) between) (.rejected error)).1.loading
        = false ∧
      (handleSubmitSettle (exec (handleSubmitStart s) between) (.rejected error)).2
        = .fulfilled :=
  ⟨rfl, rfl, rfl, rfl, rfl, rfl⟩

theorem settle_popupVisible (s : State) (o : Outcome) :
    (handleSubmitSettle s o).1.popupVisible = true := by
  cases o <;> rfl

theorem settle_timers (s : State) (o : Outcome) :
    (handleSubmitSettle s o).1.timers = s.timers ++ [s.now + autoHideMs] := by
  cases o <;> rfl

theorem settle_now (s : State) (o : Outcome) : (handleSubmitSettle s o).1.now = s.now := by
  cases o <;> rfl

/-- While the popup is left alone and no timeout falls due, it stays as it is. -/
theorem quiet_keeps_popup (es : List Event) :
    ∀ u : State, (∀ e ∈ es, e.quiet = true) → (∀ t ∈ u.timers, u.now + elapsed es < t) →
      (exec u es).popupVisible = u.popupVisible ∧
        (exec u es).popupMessage = u.popupMessage := by
  induction es with
  | nil => intro u _ _; exact ⟨rfl, rfl⟩
  | cons e es ih =>
    intro u hq ht
    have hq' : ∀ e ∈ es, e.quiet = true := fun e he => hq e (List.mem_cons_of_mem _ he)
    have he := hq e (List.mem_cons_self _ _)
    cases e with
    | change f v =>
      simp only [elapsed] at ht
      have h1 : (handle u (.change f v)).timers = u.timers := by
        simp only [handle]; split
        · cases f <;> rfl
        · rfl
      have h2 : (handle u (.change f v)).now = u.now := by
        simp only [handle]; split
        · cases f <;> rfl
        · rfl
      have h3 : (handle u (.change f v)).popupVisible = u.popupVisible ∧
          (handle u (.change f v)).popupMessage = u.popupMessage := by
        simp only [handle]; split
        · cases f <;> exact ⟨rfl, rfl⟩
        · exact ⟨rfl, rfl⟩
      have := ih (handle u (.change f v)) hq' (by rw [h1, h2]; exact ht)
      rw [exec, this.1, this.2]
      exact h3
    | elapse ms =>
      simp only [elapsed] at ht
      have hnone : (u.timers.filter fun t => decide (t ≤ u.now + ms)) = [] := by
        rw [List.filter_eq_nil_iff]
        intro t htm
        have := ht t htm
        simp only [decide_eq_true_eq]
        omega
      have hall : (u.timers.filter fun t => decide (u.now + ms < t)) = u.timers := by
        rw [List.filter_eq_self]
        intro t htm
        have := ht t htm
        simp only [decide_eq_true_eq]
        omega
      have h1 : (handle u (.elapse ms)).timers = u.timers := by
        simp only [handle, elapse]; exact hall
      have h2 : (handle u (.elapse ms)).now = u.now + ms := rfl
      have h3 : (handle u (.elapse ms)).popupVisible = u.popupVisible := by
        simp only [handle, elapse, hnone, List.isEmpty_nil, if_true]
      have h4 : (handle u (.elapse ms)).popupMessage = u.popupMessage := rfl
      have := ih (handle u (.elapse ms)) hq'
        (by rw [h1, h2]; intro t htm; have := ht t htm; omega)
      rw [exec, this.1, this.2]
      exact ⟨h3, h4⟩
    | submit => simp [Event.quiet] at he
    | settle o => simp [Event.quiet] at he
    | closePopup => simp [Event.quiet] at he
    | closeSent => simp [Event.quiet] at he
    | unmount => simp [Event.quiet] at he

theorem quiet_stays_hidden (es : List Event) :
    ∀ u : State, (∀ e ∈ es, e.quiet = true) → u.popupVisible = false →
      (exec u es).popupVisible = false := by
  induction es with
  | nil => intro u _ h; exact h
  | cons e es ih =>
    intro u hq h
    have hq' : ∀ e ∈ es, e.quiet = true := fun e he => hq e (List.mem_cons_of_mem _ he)
    have he := hq e (List.mem_cons_self _ _)
    rw [exec]
    apply ih _ hq'
    cases e with
    | change f v =>
      simp only [handle]; split
      · cases f <;> exact h
      · exact h
    | elapse ms => simp [handle, elapse, h]
    | submit => simp [Event.quiet] at he
    | settle o => simp [Event.quiet] at he
    | closePopup => simp [Event.quiet] at he
    | closeSent => simp [Event.quiet] at he
    | unmount => simp [Event.quiet] at he

/-- Once the time at which a pending timeout falls due has passed, the popup is hidden as
long as it is left alone. -/
theorem quiet_hides_popup (es : List Event) :
    ∀ (u : State) (due : Nat), (∀ e ∈ es, e.quiet = true) → due ∈ u.timers → u.now < due →
      due ≤ u.now + elapsed es → (exec u es).popupVisible = false := by
  induction es with
  | nil => intro u due _ _ h1 h2; simp only [elapsed] at h2; omega
  | cons e es ih =>
    intro u due hq hmem hlt hle
    have hq' : ∀ e ∈ es, e.quiet = true := fun e he => hq e (List.mem_cons_of_mem _ he)
    have he := hq e (List.mem_cons_self _ _)
    cases e with
    | change f v =>
      simp only [elapsed] at hle
      have h1 : (handle u (.change f v)).timers = u.timers := by
        simp only [handle]; split
        · cases f <;> rfl
        · rfl
      have h2 : (handle u (.change f v)).now = u.now := by
        simp only [handle]; split
        · cases f <;> rfl
        · rfl
      rw [exec]
      exact ih _ due hq' (by rw [h1]; exact hmem) (by rw [h2]; exact hlt) (by rw [h2]; exact hle)
    | elapse ms =>
      simp only [elapsed] at hle
      rw [exec]
      by_cases hfire : due ≤ u.now + ms
      · apply quiet_stays_hidden es _ hq'
        have hne : (u.timers.filter fun t => decide (t ≤ u.now + ms)) ≠ [] := by
          intro hnil
          rw [List.filter_eq_nil_iff] at hnil
          exact hnil due hmem (by simpa using hfire)
        have hemp : (u.timers.filter fun t => decide (t ≤ u.now + ms)).isEmpty = false := by
          cases hf : (u.timers.filter fun t => decide (t ≤ u.now + ms)) with
          | nil => exact absurd hf hne
          | cons a l => rfl
        simp [handle, elapse, hemp]
      · have h1 : due ∈ (handle u (.elapse ms)).timers := by
          simp only [handle, elapse]
          rw [List.mem_filter]
          exact ⟨hmem, by simp only [decide_eq_true_eq]; omega⟩
        have h2 : (handle u (.elapse ms)).now = u.now + ms := rfl
        exact ih _ due hq' h1 (by rw [h2]; omega) (by rw [h2]; omega)
    | submit => simp [Event.quiet] at he
    | settle o => simp [Event.quiet] at he
    | closePopup => simp [Event.quiet] at he
    | closeSent => simp [Event.quiet] at he
    | unmount => simp [Event.quiet] at he

/-- The auto-hide window when no other timeout interferes: when a submission completes in a
state `s`, the popup is visible; while the popup is left alone (time passes, inputs change)
for less than 3000 ms, and no timeout already pending in `s` falls due in that time,
`popupVisible` stays true and `popupMessage` stays the outcome of the submission; and once
3000 ms have passed with the popup left alone, `popupVisible` is false. -/
theorem popup_window (s : State) (o : Outcome) (es : List Event)
    (hq : ∀ e ∈ es, e.quiet = true) :
    (handleSubmitSettle s o).1.popupVisible = true ∧
      ((∀ t ∈ s.timers, s.now + elapsed es < t) → elapsed es < autoHideMs →
        (exec (handleSubmitSettle s o).1 es).popupVisible = true ∧
          (exec (handleSubmitSettle s o).1 es).popupMessage
            = (handleSubmitSettle s o).1.popupMessage) ∧
      (autoHideMs ≤ elapsed es → (exec (handleSubmitSettle s o).1 es).popupVisible = false) := by
  refine ⟨settle_popupVisible s o, ?_, ?_⟩
  · intro hstale hlt
    have := quiet_keeps_popup es (handleSubmitSettle s o).1 hq (by
      rw [settle_timers, settle_now]
      intro t ht
      rcases List.mem_append.mp ht with h | h
      · exact hstale t h
      · simp only [List.mem_singleton] at h; omega)
    rw [this.1, this.2, settle_popupVisible]
    exact ⟨rfl, rfl⟩
  · intro hge
    apply quiet_hides_popup es _ (s.now + autoHideMs) hq
    · rw [settle_timers]; simp
    · rw [settle_now]; simp [autoHideMs]
    · rw [settle_now]; omega

/-- C9, evaluated where the code departs from it: with the fields filled in, a first
submission fails at time 0 and the user closes its popup; a second submission, started
1000 ms later, fails at once, so its popup is shown at time 1000 with the timeouts of both
submissions pending, due at 3000 and 4000; at time 3000, only 2000 ms after the second
popup appeared and with nobody closing it, the timeout of the first submission has fired
and `popupVisible` is false. -/
theorem popup_hidden_by_earlier_timeout :
    (exec init [.change .name "Jane", .change .email "jane@x.com", .change .message "Hello",
        .submit, .settle (.rejected { text := none }), .closePopup, .elapse 1000,
        .submit, .settle (.rejected { text := none })]).popupVisible = true ∧
      (exec init [.change .name "Jane", .change .email "jane@x.com", .change .message "Hello",
        .submit, .settle (.rejected { text := none }), .closePopup, .elapse 1000,
        .submit, .settle (.rejected { text := none })]).popupMessage = failureMessage ∧
      (exec init [.change .name "Jane", .change .email "jane@x.com", .change .message "Hello",
        .submit, .settle (.rejected { text := none }), .closePopup, .elapse 1000,
        .submit, .settle (.rejected { text := none })]).now = 1000 ∧
      (exec init [.change .name "Jane", .change .email "jane@x.com", .change .message "Hello",
        .submit, .settle (.rejected { text := none }), .closePopup, .elapse 1000,
        .submit, .settle (.rejected { text := none })]).timers = [3000, 4000] ∧
      (exec init [.change .name "Jane", .change .email "jane@x.com", .change .message "Hello",
        .submit, .settle (.rejected { text := none }), .closePopup, .elapse 1000,
        .submit, .settle (.rejected { text := none }), .elapse 2000]).now = 3000 ∧
      (exec init [.change .name "Jane", .change .email "jane@x.com", .change .message "Hello",
        .submit, .settle (.rejected { text := none }), .closePopup, .elapse 1000,
        .submit, .settle (.rejected { text := none }), .elapse 2000]).popupVisible = false ∧
      (exec init [.change .name "Jane", .change .email "jane@x.com", .change .message "Hello",
        .submit, .settle (.rejected { text := none }), .closePopup, .elapse 1000,
        .submit, .settle (.rejected { text := none }), .elapse 2000]).timers = [4000] := by
  decide

/-- C13: for every state, one run of `handleSubmit` adds exactly one call of `emailjs.send`,
made before the `await` and whatever `loading` and the fields are, with `from_name`,
`from_email` and `message` the fields of `formData` at the submit; the part after the
`await` makes no call; from the first render, with all fields empty, the call is made
with three empty strings. -/
theorem handleSubmit_single_call (s : State) (o : Outcome) :
    (handleSubmitStart s).calls
        = s.calls ++ [{ from_name := s.formData.name, from_email := s.formData.email,
                        message := s.formData.message }] ∧
      (handleSubmitSettle s o).1.calls = s.calls ∧
      (handleSubmitSettle (handleSubmitStart s) o).1.calls
        = s.calls ++ [{ from_name := s.formData.name, from_email := s.formData.email,
                        message := s.formData.message }] ∧
      (exec init [.submit]).calls = [{ from_name := "", from_email := "", message := "" }] := by
  refine ⟨rfl, ?_, ?_, ?_⟩
  · cases o <;> rfl
  · cases o <;> rfl
  · decide

/-- C16: a submit starts a relay call whatever `loading` is; from the first render two
submits in a row leave two calls in flight with `loading` true, and when the first of
them settles `loading` is false while the second is still in flight. -/
theorem handleSubmit_not_guarded (s : State) (o : Outcome) :
    (handleSubmitStart s).inFlight = s.inFlight + 1 ∧
      (exec init [.submit, .submit]).inFlight = 2 ∧
      (exec init [.submit, .submit]).loading = true ∧
      (exec init [.submit, .submit, .settle o]).loading = false ∧
      (exec init [.submit, .submit, .settle o]).inFlight = 1 := by
  refine ⟨rfl, by decide, by decide, ?_, ?_⟩ <;> cases o <;> rfl

theorem sent_handle (s : State) (e : Event) (h : s.sent = false) :
    (handle s e).sent = false := by
  cases e with
  | change f v =>
    simp only [handle]; split
    · cases f <;> exact h
    · exact h
  | submit => simp only [handle]; split <;> exact h
  | settle o =>
    simp only [handle]; split
    · exact h
    · cases o <;> exact h
  | closePopup => simp only [handle]; split <;> exact h
  | closeSent => simp only [handle]; split <;> simp [h]
  | elapse ms => exact h
  | unmount => exact h

theorem sent_exec (es : List Event) : ∀ s : State, s.sent = false → (exec s es).sent = false := by
  induction es with
  | nil => intro s h; exact h
  | cons e es ih => intro s h; exact ih _ (sent_handle s e h)

/-- C18: in every state `App` reaches from its first render, `sent` is false, so the modal
guarded by `sent` is not rendered. -/
theorem sent_always_false (es : List Event) : (exec init es).sent = false :=
  sent_exec es init rfl

/-- C15, amended: unmounting `App` leaves the pending auto-hide timeouts as they are; the
timeout started when a submission completes is still pending after the unmount, and when
3000 ms have passed it fires and calls `setPopupVisible(false)`. -/
theorem autoHide_survives_unmount (s : State) (o : Outcome) :
    (handle s .unmount).timers = s.timers ∧
      s.now + autoHideMs ∈ (exec (handleSubmitSettle s o).1 [.unmount]).timers ∧
      (exec (handleSubmitSettle s o).1 [.unmount]).popupVisible = true ∧
      (exec (handleSubmitSettle s o).1 [.unmount, .elapse autoHideMs]).popupVisible = false ∧
      s.now + autoHideMs ∉ (exec (handleSubmitSettle s o).1 [.unmount, .elapse autoHideMs]).timers := by
  have ht : (handleSubmitSettle s o).1.timers = s.timers ++ [s.now + autoHideMs] := by
    cases o <;> rfl
  have hn : (handleSubmitSettle s o).1.now = s.now := by cases o <;> rfl
  have hv : (handleSubmitSettle s o).1.popupVisible = true := by cases o <;> rfl
  refine ⟨rfl, ?_, ?_, ?_, ?_⟩
  · simp [exec, handle, ht]
  · simp [exec, handle, hv]
  · have hne : ((s.timers ++ [s.now + autoHideMs]).filter
        fun t => decide (t ≤ s.now + autoHideMs)).isEmpty = false := by
      cases hf : ((s.timers ++ [s.now + autoHideMs]).filter
          fun t => decide (t ≤ s.now + autoHideMs)) with
      | nil =>
        rw [List.filter_eq_nil_iff] at hf
        exact absurd (by simp) (hf (s.now + autoHideMs) (by simp))
      | cons a l => rfl
    simp [exec, handle, elapse, ht, hn, hne]
  · simp [exec, handle, elapse, ht, hn, List.mem_filter]

/-- C15 as stated fails: a submission fails, `App` is unmounted, and the auto-hide timeout
is still pending; 3000 ms later it fires and sets `popupVisible`, which was true, to
false. -/
theorem autoHide_pending_after_unmount :
    (exec init [.submit, .settle (.rejected { text := none }), .unmount]).timers = [3000] ∧
      (exec init [.submit, .settle (.rejected { text := none }), .unmount]).popupVisible
        = true ∧
      (exec init [.submit, .settle (.rejected { text := none }), .unmount,
        .elapse 3000]).popupVisible = false := by
  decide

end App

namespace EducationRoadmap

theorem transform_unit (a b p : ℚ) (hab : a < b) :
    transform p (a, b) (0, 1) = clamp 0 1 ((p - a) / (b - a)) := by
  have hpos : 0 < b - a := by linarith
  simp only [transform, mix, progress, clamp]
  rcases le_total p a with h1 | h1
  · have h2 : (p - a) / (b - a) ≤ 0 := div_nonpos_of_nonpos_of_nonneg (by linarith) hpos.le
    rw [max_eq_right h1, min_eq_left hab.le, max_eq_right h2]
    simp
  · rcases le_total p b with h2 | h2
    · have h3 : 0 ≤ (p - a) / (b - a) := div_nonneg (by linarith) hpos.le
      have h4 : (p - a) / (b - a) ≤ 1 := by rw [div_le_one hpos]; linarith
      rw [max_eq_left h1, min_eq_left h2, max_eq_left h3, min_eq_left h4]
      ring
    · have h3 : 1 ≤ (p - a) / (b - a) := by rw [one_le_div hpos]; linarith
      rw [max_eq_left h1, min_eq_right h2, max_eq_left (by linarith), min_eq_right h3]
      rw [div_self hpos.ne']
      ring

theorem clamp_bounds (lo hi v : ℚ) (h : lo ≤ hi) : lo ≤ clamp lo hi v ∧ clamp lo hi v ≤ hi := by
  simp only [clamp]
  exact ⟨le_min (le_max_right _ _) h, min_le_right _ _⟩

theorem roadmap_start_lt_end (e : Entry) (he : e ∈ roadmap) : e.start < e.end_ := by
  simp only [roadmap, List.mem_cons, List.mem_singleton, List.not_mem_nil, or_false] at he
  rcases he with h | h | h | h <;> subst h <;> norm_num

theorem glowHeight_eq (p : ℚ) : glowHeight p = clamp 0 100 (100 * p) := by
  simp only [glowHeight, transform, mix, progress, clamp]
  rcases le_total p 0 with h1 | h1
  · rw [max_eq_right h1, max_eq_right (by linarith), min_eq_left (by norm_num),
      min_eq_left (by norm_num)]
    norm_num
  · rcases le_total p 1 with h2 | h2
    · rw [max_eq_left h1, min_eq_left h2, max_eq_left (by linarith), min_eq_left (by linarith)]
      ring
    · rw [max_eq_left h1, min_eq_right h2, max_eq_left (by linarith), min_eq_right (by linarith)]
      norm_num

/-- C10: for each entry of `roadmap` and every progress value `p`, the activity
`nodeActive` is `clamp((p - start) / (end - start), 0, 1)`; it lies in `[0, 1]`, is 0 for
`p ≤ start` and 1 for `p ≥ end`; and the glow height is `100 p` percent clamped to the
range from 0 to 100. -/
theorem nodeActive_clamped (e : Entry) (he : e ∈ roadmap) (p : ℚ) :
    nodeActive e p = clamp 0 1 ((p - e.start) / (e.end_ - e.start)) ∧
      0 ≤ nodeActive e p ∧ nodeActive e p ≤ 1 ∧
      (p ≤ e.start → nodeActive e p = 0) ∧ (e.end_ ≤ p → nodeActive e p = 1) ∧
      glowHeight p = clamp 0 100 (100 * p) ∧ 0 ≤ glowHeight p ∧ glowHeight p ≤ 100 := by
  have hlt := roadmap_start_lt_end e he
  have hpos : 0 < e.end_ - e.start := by linarith
  have heq : nodeActive e p = clamp 0 1 ((p - e.start) / (e.end_ - e.start)) :=
    transform_unit e.start e.end_ p hlt
  have hb := clamp_bounds 0 1 ((p - e.start) / (e.end_ - e.start)) (by norm_num)
  have hg := clamp_bounds 0 100 (100 * p) (by norm_num)
  refine ⟨heq, by rw [heq]; exact hb.1, by rw [heq]; exact hb.2, ?_, ?_,
    glowHeight_eq p, by rw [glowHeight_eq]; exact hg.1, by rw [glowHeight_eq]; exact hg.2⟩
  · intro h
    have h2 : (p - e.start) / (e.end_ - e.start) ≤ 0 :=
      div_nonpos_of_nonpos_of_nonneg (by linarith) hpos.le
    rw [heq, clamp, max_eq_right h2]
    simp
  · intro h
    have h3 : 1 ≤ (p - e.start) / (e.end_ - e.start) := by rw [one_le_div hpos]; linarith
    rw [heq, clamp, max_eq_left (by linarith), min_eq_right h3]

/-- Witness of C10: the entry "02", whose range is from 1/4 to 1/2, at progress 3/8. -/
theorem nodeActive_clamped_witness :
    nodeActive { id := "02", start := 1 / 4, end_ := 1 / 2 } (3 / 8)
        = clamp 0 1 ((3 / 8 - 1 / 4) / (1 / 2 - 1 / 4)) ∧
      0 ≤ nodeActive { id := "02", start := 1 / 4, end_ := 1 / 2 } (3 / 8) ∧
      nodeActive { id := "02", start := 1 / 4, end_ := 1 / 2 } (3 / 8) ≤ 1 ∧
      ((3 / 8 : ℚ) ≤ 1 / 4 → nodeActive { id := "02", start := 1 / 4, end_ := 1 / 2 } (3 / 8) = 0) ∧
      ((1 / 2 : ℚ) ≤ 3 / 8 → nodeActive { id := "02", start := 1 / 4, end_ := 1 / 2 } (3 / 8) = 1) ∧
      glowHeight (3 / 8) = clamp 0 100 (100 * (3 / 8)) ∧
      0 ≤ glowHeight (3 / 8) ∧ glowHeight (3 / 8) ≤ 100 :=
  nodeActive_clamped { id := "02", start := 1 / 4, end_ := 1 / 2 } (by simp [roadmap]) (3 / 8)

theorem nodeActive_eq (e : Entry) (he : e ∈ roadmap) (p : ℚ) :
    nodeActive e p = clamp 0 1 ((p - e.start) / (e.end_ - e.start)) :=
  transform_unit e.start e.end_ p (roadmap_start_lt_end e he)

theorem clamp_unit_pos_iff (y : ℚ) : 0 < clamp 0 1 y ↔ 0 < y := by
  simp only [clamp]
  constructor
  · intro h
    by_contra hy
    have : max y 0 = 0 := max_eq_right (not_lt.mp hy)
    rw [this] at h
    simp at h
  · intro h
    exact lt_min (lt_max_of_lt_left h) one_pos

theorem clamp_unit_lt_one_iff (y : ℚ) : clamp 0 1 y < 1 ↔ y < 1 := by
  simp only [clamp]
  constructor
  · intro h
    rw [min_lt_iff] at h
    rcases h with h | h
    · exact lt_of_le_of_lt (le_max_left _ _) h
    · exact absurd h (lt_irrefl _)
  · intro h
    exact min_lt_of_left_lt (max_lt h one_pos)

theorem clamp_unit_mono (y z : ℚ) (h : y ≤ z) : clamp 0 1 y ≤ clamp 0 1 z := by
  simp only [clamp]
  exact min_le_min (max_le_max h (le_refl _)) (le_refl _)

theorem clamp_unit_eq_one (y : ℚ) (h : 1 ≤ y) : clamp 0 1 y = 1 := by
  simp only [clamp]
  rw [max_eq_left (by linarith), min_eq_right h]

/-- An entry is partly active exactly when the progress value is strictly inside its range. -/
theorem partly_active_iff (e : Entry) (he : e ∈ roadmap) (p : ℚ) :
    (0 < nodeActive e p ∧ nodeActive e p < 1) ↔ (e.start < p ∧ p < e.end_) := by
  have hlt := roadmap_start_lt_end e he
  have hpos : 0 < e.end_ - e.start := by linarith
  rw [nodeActive_eq e he, clamp_unit_pos_iff, clamp_unit_lt_one_iff, div_pos_iff_of_pos_right hpos,
    div_lt_one hpos]
  constructor
  · rintro ⟨h1, h2⟩; exact ⟨by linarith, by linarith⟩
  · rintro ⟨h1, h2⟩; exact ⟨by linarith, by linarith⟩

/-- Of two entries with the second starting where the first ends, the second is no more
active than the first, and it is active at all only when the first is fully active. -/
theorem nodeActive_next (a b : Entry) (ha : a ∈ roadmap) (hb : b ∈ roadmap)
    (hab : a.end_ = b.start) (p : ℚ) :
    nodeActive b p ≤ nodeActive a p ∧ (0 < nodeActive b p → nodeActive a p = 1) := by
  have hla := roadmap_start_lt_end a ha
  have hlb := roadmap_start_lt_end b hb
  have hpa : 0 < a.end_ - a.start := by linarith
  have hpb : 0 < b.end_ - b.start := by linarith
  have hone : 0 < nodeActive b p → nodeActive a p = 1 := by
    rw [nodeActive_eq a ha, nodeActive_eq b hb, clamp_unit_pos_iff,
      div_pos_iff_of_pos_right hpb]
    intro h
    apply clamp_unit_eq_one
    rw [one_le_div hpa]
    linarith
  refine ⟨?_, hone⟩
  by_cases h : 0 < nodeActive b p
  · rw [hone h, nodeActive_eq b hb]
    exact (clamp_bounds 0 1 _ (by norm_num)).2
  · have h0 : nodeActive b p = 0 := by
      have hb0 : 0 ≤ nodeActive b p := by
        rw [nodeActive_eq b hb]; exact (clamp_bounds 0 1 _ (by norm_num)).1
      exact le_antisymm (not_lt.mp h) hb0
    rw [h0, nodeActive_eq a ha]
    exact (clamp_bounds 0 1 _ (by norm_num)).1

theorem partly_active_filter (p : ℚ) :
    (roadmap.filter fun e => decide (0 < nodeActive e p ∧ nodeActive e p < 1))
      = roadmap.filter fun e => decide (e.start < p ∧ p < e.end_) := by
  apply List.filter_congr
  intro e he
  rw [decide_eq_decide]
  exact partly_active_iff e he p

/-- C17: the ranges of the four entries of `roadmap` are non-empty, the first starts at 0,
each ends where the next starts, the last ends at 1; hence for every progress value `p`
the activities are non-increasing along the table, an entry is active at all only when
the entry before it is fully active, and at most one entry has an activity strictly
between 0 and 1. -/
theorem roadmap_activity_order (p : ℚ) :
    (∀ e ∈ roadmap, e.start < e.end_) ∧
      roadmap.head?.map (fun e => e.start) = some 0 ∧
      roadmap.getLast?.map (fun e => e.end_) = some 1 ∧
      List.Chain' (fun a b => a.end_ = b.start) roadmap ∧
      List.Pairwise (fun a b => nodeActive b p ≤ nodeActive a p) roadmap ∧
      List.Chain' (fun a b => 0 < nodeActive b p → nodeActive a p = 1) roadmap ∧
      (roadmap.filter fun e => decide (0 < nodeActive e p ∧ nodeActive e p < 1)).length ≤ 1 := by
  have m0 : ({ id := "01", start := 0, end_ := 1 / 4 } : Entry) ∈ roadmap := by simp [roadmap]
  have m1 : ({ id := "02", start := 1 / 4, end_ := 1 / 2 } : Entry) ∈ roadmap := by
    simp [roadmap]
  have m2 : ({ id := "03", start := 1 / 2, end_ := 3 / 4 } : Entry) ∈ roadmap := by
    simp [roadmap]
  have m3 : ({ id := "04", start := 3 / 4, end_ := 1 } : Entry) ∈ roadmap := by simp [roadmap]
  have n01 := nodeActive_next _ _ m0 m1 rfl p
  have n12 := nodeActive_next _ _ m1 m2 rfl p
  have n23 := nodeActive_next _ _ m2 m3 rfl p
  refine ⟨roadmap_start_lt_end, rfl, rfl, ?_, ?_, ?_, ?_⟩
  · simp [roadmap]
  · simp only [roadmap, List.pairwise_cons, List.mem_cons, List.mem_singleton,
      List.not_mem_nil, forall_eq_or_imp, forall_eq, false_implies, implies_true,
      List.Pairwise.nil, and_true]
    exact ⟨⟨n01.1, le_trans n12.1 n01.1, le_trans n23.1 (le_trans n12.1 n01.1)⟩,
      ⟨n12.1, le_trans n23.1 n12.1⟩, n23.1⟩
  · simp only [roadmap, List.chain'_cons, List.chain'_singleton, and_true]
    exact ⟨n01.2, n12.2, n23.2⟩
  · rw [partly_active_filter]
    simp only [roadmap, List.filter_cons, List.filter_nil, decide_eq_true_eq]
    split_ifs <;> simp <;> linarith

/-- Witness of C17: the progress value 3/8, inside the range of the second entry. -/
theorem roadmap_activity_order_witness :
    (∀ e ∈ roadmap, e.start < e.end_) ∧
      roadmap.head?.map (fun e => e.start) = some 0 ∧
      roadmap.getLast?.map (fun e => e.end_) = some 1 ∧
      List.Chain' (fun a b => a.end_ = b.start) roadmap ∧
      List.Pairwise (fun a b => nodeActive b (3 / 8) ≤ nodeActive a (3 / 8)) roadmap ∧
      List.Chain' (fun a b => 0 < nodeActive b (3 / 8) → nodeActive a (3 / 8) = 1) roadmap ∧
      (roadmap.filter fun e =>
        decide (0 < nodeActive e (3 / 8) ∧ nodeActive e (3 / 8) < 1)).length ≤ 1 :=
  roadmap_activity_order (3 / 8)

end EducationRoadmap

end PortfolioApp
